import Mathlib

/-!
Verification of the EduPlanr Session Scheduling Engine
(`src/services/sessionsService.ts`).

The engine is embedded shallowly:

* Wall-clock instants are integers counting minutes since an epoch whose
  origin is a local midnight, so one calendar day spans 1440 minutes and
  `Date.setHours(h, 0, 0, 0)` becomes flooring to the enclosing day and
  adding `h * 60`.  All inputs are whole minutes, matching the
  `date-fns` minute arithmetic (`addMinutes` / `differenceInMinutes`)
  used by the source.
* The Firestore `sessions` collection is an explicit list of stored
  documents, threaded through the functions that read or write it:
  `createSession` appends a document, `getSessionsInRange` models the
  range query (filter by user and `startTime` window, order by
  `startTime`).
* `new Date()` — the wall clock read at the top of `findAvailableSlots`
  and hence of `autoScheduleSessions` — is an explicit `today` argument.
* JavaScript `Array.prototype.sort` with a numeric comparator is a
  stable sort; it is embedded as `List.insertionSort`, which is stable.
-/

namespace EduPlanr

/-- Wall-clock instants and durations, in minutes. -/
abbrev Minutes := Int

/-- One calendar day, in minutes. -/
def minutesPerDay : Int := 1440

/-- `d.setHours(h, 0, 0, 0)`: floor instant `t` to its enclosing local
day and set the time of day to `h` hours. -/
def setHours (t h : Int) : Int :=
  t.fdiv minutesPerDay * minutesPerDay + h * 60

/-- The payload of a study session: `Omit<StudySession, 'id' | 'userId'
| 'createdAt' | 'updatedAt'>` from `src/types`. -/
structure SessionData where
  title : String
  description : String
  subjectId : String
  syllabusId : String
  topicId : String
  startTime : Minutes
  endTime : Minutes
  isCompleted : Bool
  notes : String
  type : String
deriving DecidableEq, Repr

/-- A `StudySession` as returned by the service layer: payload plus the
identity fields assigned at persistence time. -/
structure StudySession extends SessionData where
  id : Nat
  userId : String
deriving DecidableEq, Repr

/-- One document of the Firestore `sessions` collection. -/
structure StoredDoc where
  userId : String
  data : SessionData
deriving DecidableEq, Repr

/-- `createSession`: `addDoc` a document into the `sessions` collection
and return the session with its assigned id.  Document ids are modelled
by position in the collection list. -/
def createSession (store : List StoredDoc) (userId : String) (s : SessionData) :
    List StoredDoc × StudySession :=
  (store ++ [⟨userId, s⟩], { toSessionData := s, id := store.length, userId := userId })

/-- Rebuild a `StudySession` from a stored document and its id. -/
def fromDoc (i : Nat) (d : StoredDoc) : StudySession :=
  { toSessionData := d.data, id := i, userId := d.userId }

/-- The comparator `(a, b) => a.startTime.getTime() - b.startTime.getTime()`
used to sort sessions ascending by start time. -/
def startTimeLE (a b : StudySession) : Prop := a.startTime ≤ b.startTime

instance : DecidableRel startTimeLE :=
  fun a b => inferInstanceAs (Decidable (a.startTime ≤ b.startTime))

instance : IsTotal StudySession startTimeLE := ⟨fun a b => le_total a.startTime b.startTime⟩

instance : IsTrans StudySession startTimeLE := ⟨fun _ _ _ => le_trans⟩

/-- `getSessionsInRange`: the Firestore query
`where userId == · , startTime >= startDate, startTime <= endDate,
orderBy startTime asc`. -/
def getSessionsInRange (store : List StoredDoc) (userId : String)
    (startDate endDate : Minutes) : List StudySession :=
  List.insertionSort startTimeLE
    ((store.enum.filter fun p =>
        decide (p.2.userId = userId ∧ startDate ≤ p.2.data.startTime ∧
          p.2.data.startTime ≤ endDate)).map
      fun p => fromDoc p.1 p.2)

/-- `interface TimeSlot`.  The source field `end` is a Lean keyword and
is embedded as `stop`. -/
structure TimeSlot where
  start : Minutes
  stop : Minutes
deriving DecidableEq, Repr

/-- `interface SchedulingOptions`. -/
structure SchedulingOptions where
  preferredStartHour : Int
  preferredEndHour : Int
  sessionDuration : Int
  breakDuration : Int
  daysAhead : Int
deriving DecidableEq, Repr

/-- `Partial<SchedulingOptions>`: each field may be absent. -/
structure PartialSchedulingOptions where
  preferredStartHour : Option Int := none
  preferredEndHour : Option Int := none
  sessionDuration : Option Int := none
  breakDuration : Option Int := none
  daysAhead : Option Int := none
deriving DecidableEq, Repr

/-- `DEFAULT_SCHEDULING_OPTIONS`. -/
def DEFAULT_SCHEDULING_OPTIONS : SchedulingOptions :=
  { preferredStartHour := 9
    preferredEndHour := 21
    sessionDuration := 45
    breakDuration := 15
    daysAhead := 7 }

/-- `const opts = { ...DEFAULT_SCHEDULING_OPTIONS, ...options }`. -/
def mergeOptions (o : PartialSchedulingOptions) : SchedulingOptions :=
  { preferredStartHour := o.preferredStartHour.getD DEFAULT_SCHEDULING_OPTIONS.preferredStartHour
    preferredEndHour := o.preferredEndHour.getD DEFAULT_SCHEDULING_OPTIONS.preferredEndHour
    sessionDuration := o.sessionDuration.getD DEFAULT_SCHEDULING_OPTIONS.sessionDuration
    breakDuration := o.breakDuration.getD DEFAULT_SCHEDULING_OPTIONS.breakDuration
    daysAhead := o.daysAhead.getD DEFAULT_SCHEDULING_OPTIONS.daysAhead }

/-- The `for (const session of daySessions)` gap walk of
`findAvailableSlots`, followed by the end-of-day check. -/
def findGaps (opts : SchedulingOptions) (dayEnd : Minutes) :
    List StudySession → Minutes → List TimeSlot
  | [], currentTime =>
      if opts.sessionDuration ≤ dayEnd - currentTime then
        [⟨currentTime, dayEnd⟩]
      else []
  | s :: rest, currentTime =>
      (if opts.sessionDuration ≤ s.startTime - currentTime then
          [⟨currentTime, s.startTime⟩]
        else []) ++
        findGaps opts dayEnd rest (s.endTime + opts.breakDuration)

/-- One iteration of the `for (let day = 0; ...)` loop of
`findAvailableSlots`: compute the preferred window of the day, keep the
sessions whose `startTime` lies inside it (`isWithinInterval`), sort
them by `startTime`, and walk the gaps.  `isWithinInterval` is embedded
as the inclusive-bounds test `dayStart ≤ t ∧ t ≤ dayEnd`; on an
*inverted* window (`dayStart > dayEnd`) the library the source uses
throws a `RangeError` (date-fns v2) or sorts the bounds (v3+) instead,
so the embedding is exact only when the window is not inverted or the
filter's callback is never invoked (no fetched sessions). -/
def slotsForDay (opts : SchedulingOptions) (existingSessions : List StudySession)
    (today : Minutes) (day : Nat) : List TimeSlot :=
  let dayStart := setHours (today + minutesPerDay * day) opts.preferredStartHour
  let dayEnd := setHours (today + minutesPerDay * day) opts.preferredEndHour
  let daySessions := existingSessions.filter fun s =>
    decide (dayStart ≤ s.startTime ∧ s.startTime ≤ dayEnd)
  findGaps opts dayEnd (List.insertionSort startTimeLE daySessions) dayStart

/-- `findAvailableSlots` after its options merge: fetch the existing
sessions of the horizon and concatenate the slots of each day. -/
def findAvailableSlotsCore (store : List StoredDoc) (userId : String)
    (today : Minutes) (opts : SchedulingOptions) : List TimeSlot :=
  let endDate := today + minutesPerDay * opts.daysAhead
  let existingSessions := getSessionsInRange store userId today endDate
  ((List.range opts.daysAhead.toNat).map (slotsForDay opts existingSessions today)).flatten

/-- `findAvailableSlots(userId, options)`.  `today` is the `new Date()`
read at the top of the function, made explicit. -/
def findAvailableSlots (store : List StoredDoc) (userId : String)
    (today : Minutes) (options : PartialSchedulingOptions) : List TimeSlot :=
  findAvailableSlotsCore store userId today (mergeOptions options)

/-- `type Priority` from `src/types`. -/
inductive Priority
  | low
  | medium
  | high
  | critical
deriving DecidableEq, Repr

/-- `type TopicStatus` from `src/types`. -/
inductive TopicStatus
  | notStarted
  | inProgress
  | completed
  | skipped
deriving DecidableEq, Repr

/-- The `priorityOrder` record of `autoScheduleSessions`. -/
def priorityOrder : Priority → Int
  | .critical => 0
  | .high => 1
  | .medium => 2
  | .low => 3

/-- `interface SyllabusTopic` (the fields the engine reads). -/
structure SyllabusTopic where
  id : String
  title : String
  description : String
  estimatedHours : Int
  priority : Priority
  status : TopicStatus
deriving DecidableEq, Repr

/-- `interface Syllabus` (the fields the engine reads). -/
structure Syllabus where
  id : String
  subjectId : String
  topics : List SyllabusTopic
deriving DecidableEq, Repr

/-- The comparator `(a, b) => priorityOrder[a.priority] -
priorityOrder[b.priority]` of `autoScheduleSessions`. -/
def topicLE (a b : SyllabusTopic) : Prop :=
  priorityOrder a.priority ≤ priorityOrder b.priority

instance : DecidableRel topicLE :=
  fun a b => inferInstanceAs (Decidable (priorityOrder a.priority ≤ priorityOrder b.priority))

instance : IsTotal SyllabusTopic topicLE :=
  ⟨fun a b => le_total (priorityOrder a.priority) (priorityOrder b.priority)⟩

instance : IsTrans SyllabusTopic topicLE := ⟨fun _ _ _ => le_trans⟩

/-- The `incompleteTopics` computation of `autoScheduleSessions`: drop
`completed` and `skipped` topics and stable-sort the rest by
`priorityOrder` (ascending, so `critical` first). -/
def incompleteTopics (syl : Syllabus) : List SyllabusTopic :=
  List.insertionSort topicLE
    (syl.topics.filter fun t =>
      decide (t.status ≠ TopicStatus.completed ∧ t.status ≠ TopicStatus.skipped))

/-- The session payload built inside the allocation loop of
`autoScheduleSessions`. -/
def sessionDataFor (syl : Syllabus) (topic : SyllabusTopic)
    (sessionStart sessionEnd : Minutes) : SessionData :=
  { title := "Study: " ++ topic.title
    description := topic.description
    subjectId := syl.subjectId
    syllabusId := syl.id
    topicId := topic.id
    startTime := sessionStart
    endTime := sessionEnd
    isCompleted := false
    notes := ""
    type := "study" }

/-- The inner `while (scheduledMinutes < requiredMinutes && slotIndex <
availableSlots.length)` loop of `autoScheduleSessions`, for one topic.
The slot array from index `slotIndex` on is the list argument; the
in-place mutation `slot.start = ...` is the head replacement.  Returns
the updated store, the sessions created for this topic, and the
remaining slots. -/
def allocTopic (opts : SchedulingOptions) (userId : String) (syl : Syllabus)
    (topic : SyllabusTopic) (required : Int) :
    List StoredDoc → Int → List TimeSlot → List StoredDoc × List StudySession × List TimeSlot
  | store, _, [] => (store, [], [])
  | store, scheduled, slot :: rest =>
    if scheduled < required then
      let slotDuration := slot.stop - slot.start
      let sessionMinutes := min opts.sessionDuration (min slotDuration (required - scheduled))
      if 15 ≤ sessionMinutes then
        let sessionStart := slot.start
        let sessionEnd := sessionStart + sessionMinutes
        let r := createSession store userId (sessionDataFor syl topic sessionStart sessionEnd)
        let newStart := sessionEnd + opts.breakDuration
        if slot.stop - newStart < opts.sessionDuration then
          let r2 := allocTopic opts userId syl topic required r.1 (scheduled + sessionMinutes) rest
          (r2.1, r.2 :: r2.2.1, r2.2.2)
        else
          let r2 := allocTopic opts userId syl topic required r.1 (scheduled + sessionMinutes)
            (⟨newStart, slot.stop⟩ :: rest)
          (r2.1, r.2 :: r2.2.1, r2.2.2)
      else
        allocTopic opts userId syl topic required store scheduled rest
    else (store, [], slot :: rest)
termination_by _ scheduled slots => (required - scheduled).toNat + slots.length
decreasing_by
  all_goals simp only [List.length_cons]
  all_goals omega

/-- Structural (fuel-indexed) twin of `allocTopic`, used to evaluate
concrete runs by kernel reduction; `allocTopicFuel_eq` shows it agrees
with `allocTopic` whenever the fuel dominates the loop measure. -/
def allocTopicFuel (opts : SchedulingOptions) (userId : String) (syl : Syllabus)
    (topic : SyllabusTopic) (required : Int) :
    Nat → List StoredDoc → Int → List TimeSlot →
      List StoredDoc × List StudySession × List TimeSlot
  | 0, store, _, slots => (store, [], slots)
  | _ + 1, store, _, [] => (store, [], [])
  | fuel + 1, store, scheduled, slot :: rest =>
    if scheduled < required then
      let slotDuration := slot.stop - slot.start
      let sessionMinutes := min opts.sessionDuration (min slotDuration (required - scheduled))
      if 15 ≤ sessionMinutes then
        let sessionStart := slot.start
        let sessionEnd := sessionStart + sessionMinutes
        let r := createSession store userId (sessionDataFor syl topic sessionStart sessionEnd)
        let newStart := sessionEnd + opts.breakDuration
        if slot.stop - newStart < opts.sessionDuration then
          let r2 := allocTopicFuel opts userId syl topic required fuel r.1
            (scheduled + sessionMinutes) rest
          (r2.1, r.2 :: r2.2.1, r2.2.2)
        else
          let r2 := allocTopicFuel opts userId syl topic required fuel r.1
            (scheduled + sessionMinutes) (⟨newStart, slot.stop⟩ :: rest)
          (r2.1, r.2 :: r2.2.1, r2.2.2)
      else
        allocTopicFuel opts userId syl topic required fuel store scheduled rest
    else (store, [], slot :: rest)

theorem allocTopic_exit (opts : SchedulingOptions) (userId : String) (syl : Syllabus)
    (topic : SyllabusTopic) (required : Int) (store : List StoredDoc) (scheduled : Int)
    (slot : TimeSlot) (rest : List TimeSlot) (hreq : ¬scheduled < required) :
    allocTopic opts userId syl topic required store scheduled (slot :: rest) =
      (store, [], slot :: rest) := by
  rw [allocTopic.eq_2]
  simp only [if_neg hreq]

theorem allocTopic_skip (opts : SchedulingOptions) (userId : String) (syl : Syllabus)
    (topic : SyllabusTopic) (required : Int) (store : List StoredDoc) (scheduled : Int)
    (slot : TimeSlot) (rest : List TimeSlot) (hreq : scheduled < required)
    (hmin : ¬15 ≤ min opts.sessionDuration (min (slot.stop - slot.start) (required - scheduled))) :
    allocTopic opts userId syl topic required store scheduled (slot :: rest) =
      allocTopic opts userId syl topic required store scheduled rest := by
  rw [allocTopic.eq_2]
  simp only [if_pos hreq, if_neg hmin]

theorem allocTopic_emit (opts : SchedulingOptions) (userId : String) (syl : Syllabus)
    (topic : SyllabusTopic) (required : Int) (store : List StoredDoc) (scheduled : Int)
    (slot : TimeSlot) (rest : List TimeSlot) (hreq : scheduled < required)
    (hmin : 15 ≤ min opts.sessionDuration (min (slot.stop - slot.start) (required - scheduled))) :
    allocTopic opts userId syl topic required store scheduled (slot :: rest) =
      (let m := min opts.sessionDuration (min (slot.stop - slot.start) (required - scheduled))
       let r := createSession store userId (sessionDataFor syl topic slot.start (slot.start + m))
       let slots2 :=
         if slot.stop - (slot.start + m + opts.breakDuration) < opts.sessionDuration then rest
         else ⟨slot.start + m + opts.breakDuration, slot.stop⟩ :: rest
       let r2 := allocTopic opts userId syl topic required r.1 (scheduled + m) slots2
       (r2.1, r.2 :: r2.2.1, r2.2.2)) := by
  rw [allocTopic.eq_2]
  simp only [if_pos hreq, if_pos hmin]
  by_cases hadv :
      slot.stop - (slot.start + min opts.sessionDuration
        (min (slot.stop - slot.start) (required - scheduled)) + opts.breakDuration) <
        opts.sessionDuration
  · simp only [if_pos hadv]
  · simp only [if_neg hadv]

theorem allocTopicFuel_eq (opts : SchedulingOptions) (userId : String) (syl : Syllabus)
    (topic : SyllabusTopic) (required : Int) :
    ∀ (store : List StoredDoc) (scheduled : Int) (slots : List TimeSlot) (fuel : Nat),
      (required - scheduled).toNat + slots.length < fuel →
      allocTopicFuel opts userId syl topic required fuel store scheduled slots =
        allocTopic opts userId syl topic required store scheduled slots := by
  intro store scheduled slots
  induction store, scheduled, slots using allocTopic.induct opts userId syl topic required with
  | case1 store scheduled =>
    intro fuel hfuel
    match fuel, hfuel with
    | fuel + 1, _ => rw [allocTopicFuel, allocTopic.eq_1]
  | case2 store scheduled slot rest hreq sd sm hmin ss se r ns hadv ih =>
    intro fuel hfuel
    match fuel, hfuel with
    | fuel + 1, hfuel =>
      rw [allocTopicFuel, allocTopic_emit _ _ _ _ _ _ _ _ _ hreq hmin]
      simp only [if_pos hreq, if_pos hmin, if_pos hadv]
      rw [ih fuel (by simp only [List.length_cons] at hfuel ⊢; omega)]
  | case3 store scheduled slot rest hreq sd sm hmin ss se r ns hadv ih =>
    intro fuel hfuel
    match fuel, hfuel with
    | fuel + 1, hfuel =>
      rw [allocTopicFuel, allocTopic_emit _ _ _ _ _ _ _ _ _ hreq hmin]
      simp only [if_pos hreq, if_pos hmin, if_neg hadv]
      rw [ih fuel (by simp only [List.length_cons] at hfuel ⊢; omega)]
  | case4 store scheduled slot rest hreq sd sm hmin ih =>
    intro fuel hfuel
    match fuel, hfuel with
    | fuel + 1, hfuel =>
      rw [allocTopicFuel, allocTopic_skip _ _ _ _ _ _ _ _ _ hreq hmin]
      simp only [if_pos hreq, if_neg hmin]
      exact ih fuel (by simp only [List.length_cons] at hfuel ⊢; omega)
  | case5 store scheduled slot rest hreq =>
    intro fuel hfuel
    match fuel, hfuel with
    | fuel + 1, _ =>
      rw [allocTopicFuel, allocTopic_exit _ _ _ _ _ _ _ _ _ hreq]
      simp only [if_neg hreq]

/-- Executable form of `allocTopic`: run the fuel twin with enough
fuel. -/
def allocTopicRun (opts : SchedulingOptions) (userId : String) (syl : Syllabus)
    (topic : SyllabusTopic) (required : Int) (store : List StoredDoc)
    (scheduled : Int) (slots : List TimeSlot) :
    List StoredDoc × List StudySession × List TimeSlot :=
  allocTopicFuel opts userId syl topic required
    ((required - scheduled).toNat + slots.length + 1) store scheduled slots

theorem allocTopicRun_eq (opts : SchedulingOptions) (userId : String) (syl : Syllabus)
    (topic : SyllabusTopic) (required : Int) (store : List StoredDoc)
    (scheduled : Int) (slots : List TimeSlot) :
    allocTopicRun opts userId syl topic required store scheduled slots =
      allocTopic opts userId syl topic required store scheduled slots :=
  allocTopicFuel_eq opts userId syl topic required store scheduled slots _ (by omega)

/-- The outer `for (const topic of incompleteTopics)` loop of
`autoScheduleSessions`. -/
def allocTopics (opts : SchedulingOptions) (userId : String) (syl : Syllabus) :
    List StoredDoc → List SyllabusTopic → List TimeSlot → List StoredDoc × List StudySession
  | store, [], _ => (store, [])
  | store, topic :: ts, slots =>
    let r := allocTopic opts userId syl topic (topic.estimatedHours * 60) store 0 slots
    let r2 := allocTopics opts userId syl r.1 ts r.2.2
    (r2.1, r.2.1 ++ r2.2)

/-- Executable twin of `allocTopics`. -/
def allocTopicsRun (opts : SchedulingOptions) (userId : String) (syl : Syllabus) :
    List StoredDoc → List SyllabusTopic → List TimeSlot → List StoredDoc × List StudySession
  | store, [], _ => (store, [])
  | store, topic :: ts, slots =>
    let r := allocTopicRun opts userId syl topic (topic.estimatedHours * 60) store 0 slots
    let r2 := allocTopicsRun opts userId syl r.1 ts r.2.2
    (r2.1, r.2.1 ++ r2.2)

theorem allocTopicsRun_eq (opts : SchedulingOptions) (userId : String) (syl : Syllabus) :
    ∀ (ts : List SyllabusTopic) (store : List StoredDoc) (slots : List TimeSlot),
      allocTopicsRun opts userId syl store ts slots = allocTopics opts userId syl store ts slots := by
  intro ts
  induction ts with
  | nil => intro store slots; rfl
  | cons topic ts ih =>
    intro store slots
    rw [allocTopicsRun, allocTopics, allocTopicRun_eq]
    rw [ih]

/-- `autoScheduleSessions` after its options merge. -/
def autoScheduleSessionsCore (store : List StoredDoc) (userId : String)
    (today : Minutes) (syl : Syllabus) (opts : SchedulingOptions) :
    List StoredDoc × List StudySession :=
  let topics := incompleteTopics syl
  if topics.isEmpty then (store, [])
  else
    let availableSlots := findAvailableSlotsCore store userId today opts
    allocTopics opts userId syl store topics availableSlots

/-- `autoScheduleSessions(userId, syllabus, options)`.  `today` is the
`new Date()` read inside the nested `findAvailableSlots` call; the
returned pair is the final state of the `sessions` collection and the
`scheduledSessions` return value. -/
def autoScheduleSessions (store : List StoredDoc) (userId : String)
    (today : Minutes) (syl : Syllabus) (options : PartialSchedulingOptions) :
    List StoredDoc × List StudySession :=
  autoScheduleSessionsCore store userId today syl (mergeOptions options)

/-- Executable twin of `autoScheduleSessions` (kernel-reducible, for
evaluating concrete runs). -/
def autoScheduleRun (store : List StoredDoc) (userId : String)
    (today : Minutes) (syl : Syllabus) (options : PartialSchedulingOptions) :
    List StoredDoc × List StudySession :=
  let opts := mergeOptions options
  let topics := incompleteTopics syl
  if topics.isEmpty then (store, [])
  else
    allocTopicsRun opts userId syl store topics (findAvailableSlotsCore store userId today opts)

theorem autoScheduleSessions_eq_run (store : List StoredDoc) (userId : String)
    (today : Minutes) (syl : Syllabus) (options : PartialSchedulingOptions) :
    autoScheduleSessions store userId today syl options =
      autoScheduleRun store userId today syl options := by
  unfold autoScheduleSessions autoScheduleSessionsCore autoScheduleRun
  by_cases h : (incompleteTopics syl).isEmpty
  · simp [h]
  · simp [h, allocTopicsRun_eq]

/-! ### Basic facts about the embedding -/

theorem setHours_sub (t h1 h2 : Int) : setHours t h1 - setHours t h2 = (h1 - h2) * 60 := by
  unfold setHours
  ring

theorem getSessionsInRange_nil (userId : String) (a b : Minutes) :
    getSessionsInRange [] userId a b = [] := rfl

/-- With no stored sessions each day contributes the single full-window
gap check. -/
theorem slotsForDay_no_sessions (opts : SchedulingOptions) (today : Minutes) (day : Nat) :
    slotsForDay opts [] today day =
      if opts.sessionDuration ≤
          setHours (today + minutesPerDay * day) opts.preferredEndHour -
            setHours (today + minutesPerDay * day) opts.preferredStartHour then
        [⟨setHours (today + minutesPerDay * day) opts.preferredStartHour,
          setHours (today + minutesPerDay * day) opts.preferredEndHour⟩]
      else [] := rfl

/-- The topic loop emits nothing once the slot list is exhausted. -/
theorem allocTopics_nil_slots (opts : SchedulingOptions) (userId : String) (syl : Syllabus) :
    ∀ (ts : List SyllabusTopic) (store : List StoredDoc),
      allocTopics opts userId syl store ts [] = (store, []) := by
  intro ts
  induction ts with
  | nil => intro store; rfl
  | cons topic ts ih =>
    intro store
    rw [allocTopics, allocTopic.eq_1]
    exact ih store

/-- When no stored document of the user has its start time in the
queried range, the range query returns nothing (and the per-session
callbacks of the source are never invoked). -/
theorem getSessionsInRange_eq_nil (store : List StoredDoc) (userId : String) (a b : Minutes)
    (hnone : ∀ d ∈ store, ¬(d.userId = userId ∧ a ≤ d.data.startTime ∧
      d.data.startTime ≤ b)) :
    getSessionsInRange store userId a b = [] := by
  unfold getSessionsInRange
  have hfil : store.enum.filter (fun p =>
      decide (p.2.userId = userId ∧ a ≤ p.2.data.startTime ∧ p.2.data.startTime ≤ b)) = [] := by
    apply List.filter_eq_nil_iff.mpr
    intro p hp
    have hmem : p.2 ∈ store := by
      have h2 := List.mem_map_of_mem Prod.snd hp
      rwa [List.enum_map_snd] at h2
    simp only [decide_eq_true_eq]
    exact hnone p.2 hmem
  rw [hfil]
  rfl

/-- An inverted preferred window yields no slots at all when the fetch
returns no sessions (so the day filter's callback — `isWithinInterval`
in the source — is never invoked), provided the session duration is
positive. -/
theorem findAvailableSlotsCore_inverted (store : List StoredDoc) (userId : String)
    (today : Minutes) (opts : SchedulingOptions)
    (hfetch : getSessionsInRange store userId today
      (today + minutesPerDay * opts.daysAhead) = [])
    (hbad : opts.preferredEndHour ≤ opts.preferredStartHour)
    (hsd : 0 < opts.sessionDuration) :
    findAvailableSlotsCore store userId today opts = [] := by
  simp only [findAvailableSlotsCore, hfetch]
  apply List.flatten_eq_nil_iff.mpr
  intro l hl
  rcases List.mem_map.mp hl with ⟨day, _, rfl⟩
  rw [slotsForDay_no_sessions]
  rw [if_neg]
  rw [setHours_sub]
  nlinarith

/-! ### Concrete fixtures used by witnesses and counterexamples -/

/-- A booking 10:00–11:00 on day 0 (inside the default 09:00–21:00
window). -/
def booking10to11 : StoredDoc := ⟨"u", ⟨"b", "", "s", "y", "t", 600, 660, false, "", "study"⟩⟩

/-- A booking 08:30–10:00 on day 0: it straddles the 09:00 window start,
so its `startTime` falls outside the preferred window. -/
def booking830to10 : StoredDoc := ⟨"u", ⟨"b", "", "s", "y", "t", 510, 600, false, "", "study"⟩⟩

/-- A one-hour, high-priority, not-started topic. -/
def topicT : SyllabusTopic := ⟨"T", "T", "", 1, Priority.high, TopicStatus.notStarted⟩

/-- A syllabus holding only `topicT`. -/
def sylT : Syllabus := ⟨"syl", "sub", [topicT]⟩

/-- A one-hour critical topic and a one-hour low topic, the low one
declared first. -/
def topicCrit : SyllabusTopic := ⟨"C", "C", "", 1, Priority.critical, TopicStatus.notStarted⟩

def topicLow : SyllabusTopic := ⟨"L", "L", "", 1, Priority.low, TopicStatus.notStarted⟩

def sylLowCrit : Syllabus := ⟨"syl", "sub", [topicLow, topicCrit]⟩

/-! ### C8 -/

/-- C8: with the preferred window 09:00–21:00, `sessionDuration = 45`,
`breakDuration = 15` and one existing booking 10:00–11:00, the slot
finder produces exactly the two slots 09:00–10:00 and 11:15–21:00 for
that day (times in minutes from the day's midnight: 540–600 and
675–1260). -/
theorem C8_workedSlotExample :
    findAvailableSlots [booking10to11] "u" 0 { daysAhead := some 1 } =
      [⟨540, 600⟩, ⟨675, 1260⟩] := by decide

/-! ### C4 -/

/-- C4 counterexample: the slot finder reads the wall clock
(`new Date()`, the explicit `today` argument of the embedding), so two
calls with identical caller-supplied inputs made at different times
return different slot lists.  Here the same (empty) store, user and
options give different answers at `today = 0` and `today = 1440`. -/
theorem C4_determinism_counterexample :
    findAvailableSlots [] "u" 0 {} ≠ findAvailableSlots [] "u" 1440 {} := by decide

/-- C4 (amended): the slot computation is deterministic once the
wall-clock reading is fixed — it is a pure function of the stored
sessions, the user, the clock reading `today` and the options, with no
other ambient state.  (As the counterexample shows, the horizon start is
read from the system clock rather than supplied by the caller, so
determinism holds only for a fixed `today`.) -/
theorem C4_determinism_amended (store1 store2 : List StoredDoc) (u1 u2 : String)
    (t1 t2 : Minutes) (o1 o2 : PartialSchedulingOptions)
    (hs : store1 = store2) (hu : u1 = u2) (ht : t1 = t2) (ho : o1 = o2) :
    findAvailableSlots store1 u1 t1 o1 = findAvailableSlots store2 u2 t2 o2 := by
  rw [hs, hu, ht, ho]

/-- C4 witness: the amended determinism theorem applied at a concrete
repeated call. -/
theorem C4_determinism_amended_witness :
    findAvailableSlots [booking10to11] "u" 300 {} = findAvailableSlots [booking10to11] "u" 300 {} :=
  C4_determinism_amended [booking10to11] [booking10to11] "u" "u" 300 300 {} {} rfl rfl rfl rfl

/-! ### C2 -/

/-- C2 counterexample: the engine performs no configuration validation.
With the malformed configuration `preferredStartHour = 21 ≥
preferredEndHour = 9` both entry points run to completion and return the
ordinary "no slots found" outcome — the empty list — rather than raising
a configuration-validation error distinct from it. -/
theorem C2_configValidation_counterexample :
    findAvailableSlots [] "u" 0 { preferredStartHour := some 21, preferredEndHour := some 9 } =
        [] ∧
      autoScheduleSessions [] "u" 0 sylT
          { preferredStartHour := some 21, preferredEndHour := some 9 } =
        ([], []) := by
  constructor
  · decide
  · rw [autoScheduleSessions_eq_run]; decide

/-- C2 (amended): the engine performs no configuration validation.  A
merged configuration with `preferredStartHour ≥ preferredEndHour` (and a
positive session duration) is accepted, and for every call made for a
user with no stored sessions inside the scheduling horizon — the regime
where the day filter's callback is never invoked, so the embedding is
exact for every version of the `isWithinInterval` dependency — both
entry points return the empty result, exactly the normal "no slots
found" outcome, and no configuration-validation error is raised. -/
theorem C2_configValidation_amended (store : List StoredDoc) (userId : String)
    (today : Minutes) (syl : Syllabus) (o : PartialSchedulingOptions)
    (hnone : ∀ d ∈ store, ¬(d.userId = userId ∧ today ≤ d.data.startTime ∧
      d.data.startTime ≤ today + minutesPerDay * (mergeOptions o).daysAhead))
    (hbad : (mergeOptions o).preferredEndHour ≤ (mergeOptions o).preferredStartHour)
    (hsd : 0 < (mergeOptions o).sessionDuration) :
    findAvailableSlots store userId today o = [] ∧
      autoScheduleSessions store userId today syl o = (store, []) := by
  have hfetch := getSessionsInRange_eq_nil store userId today
    (today + minutesPerDay * (mergeOptions o).daysAhead) hnone
  have hslots : findAvailableSlotsCore store userId today (mergeOptions o) = [] :=
    findAvailableSlotsCore_inverted store userId today (mergeOptions o) hfetch hbad hsd
  refine ⟨hslots, ?_⟩
  unfold autoScheduleSessions autoScheduleSessionsCore
  by_cases h : (incompleteTopics syl).isEmpty
  · simp [h]
  · simp only [h, Bool.false_eq_true, if_false, hslots]
    exact allocTopics_nil_slots (mergeOptions o) userId syl (incompleteTopics syl) store

/-- A stored booking belonging to a different user: it is never fetched
for user `"u"`. -/
def bookingOtherUser : StoredDoc := ⟨"other", ⟨"b", "", "s", "y", "t", 600, 660, false, "", "study"⟩⟩

/-- C2 witness: the amended theorem at a concrete malformed
configuration, with a store holding another user's booking (so the
horizon holds no session of the calling user). -/
theorem C2_configValidation_amended_witness :
    findAvailableSlots [bookingOtherUser] "u" 120
        { preferredStartHour := some 18, preferredEndHour := some 7 } = [] ∧
      autoScheduleSessions [bookingOtherUser] "u" 120 sylT
          { preferredStartHour := some 18, preferredEndHour := some 7 } =
        ([bookingOtherUser], []) :=
  C2_configValidation_amended [bookingOtherUser] "u" 120 sylT
    { preferredStartHour := some 18, preferredEndHour := some 7 } (by decide) (by decide)
    (by decide)

/-! ### C9 -/

/-- C9: once a topic's remaining requirement is strictly between 0 and
15 minutes, every computed `sessionMinutes` stays below 15, so the topic
loop emits no session and advances `slotIndex` past every remaining slot
(returning the store untouched and an empty remaining-slot list); with
the slots exhausted, every later topic then receives zero sessions. -/
theorem C9_smallRemainderStarvation (opts : SchedulingOptions) (userId : String)
    (syl : Syllabus) (topic : SyllabusTopic) (required scheduled : Int)
    (store : List StoredDoc) (slots : List TimeSlot) (ts : List SyllabusTopic)
    (h1 : 0 < required - scheduled) (h2 : required - scheduled < 15) :
    allocTopic opts userId syl topic required store scheduled slots = (store, [], []) ∧
      allocTopics opts userId syl store ts [] = (store, []) := by
  refine ⟨?_, allocTopics_nil_slots opts userId syl ts store⟩
  induction slots with
  | nil => rw [allocTopic.eq_1]
  | cons slot rest ih =>
    rw [allocTopic_skip opts userId syl topic required store scheduled slot rest (by omega)
      (by have := min_le_right opts.sessionDuration
            (min (slot.stop - slot.start) (required - scheduled))
          have := min_le_right (slot.stop - slot.start) (required - scheduled)
          omega)]
    exact ih

/-- C9 witness: a topic needing ten more minutes skips two generous
slots without emitting anything, and a following topic gets nothing. -/
theorem C9_smallRemainderStarvation_witness :
    allocTopic DEFAULT_SCHEDULING_OPTIONS "u" sylT topicT 10 [] 0 [⟨0, 100⟩, ⟨200, 300⟩] =
        ([], [], []) ∧
      allocTopics DEFAULT_SCHEDULING_OPTIONS "u" sylT [] [topicT] [] = ([], []) :=
  C9_smallRemainderStarvation DEFAULT_SCHEDULING_OPTIONS "u" sylT topicT 10 0 []
    [⟨0, 100⟩, ⟨200, 300⟩] [topicT] (by decide) (by decide)

/-! ### C10 -/

/-- C10: both public entry points merge the caller's partial options
field-by-field over the defaults `preferredStartHour = 9`,
`preferredEndHour = 21`, `sessionDuration = 45`, `breakDuration = 15`,
`daysAhead = 7`: every omitted field takes its default and every
supplied field overrides it, and both `findAvailableSlots` and
`autoScheduleSessions` compute with exactly the merged options. -/
theorem C10_optionDefaulting (o : PartialSchedulingOptions) :
    ((o.preferredStartHour = none → (mergeOptions o).preferredStartHour = 9) ∧
      ∀ v, o.preferredStartHour = some v → (mergeOptions o).preferredStartHour = v) ∧
    ((o.preferredEndHour = none → (mergeOptions o).preferredEndHour = 21) ∧
      ∀ v, o.preferredEndHour = some v → (mergeOptions o).preferredEndHour = v) ∧
    ((o.sessionDuration = none → (mergeOptions o).sessionDuration = 45) ∧
      ∀ v, o.sessionDuration = some v → (mergeOptions o).sessionDuration = v) ∧
    ((o.breakDuration = none → (mergeOptions o).breakDuration = 15) ∧
      ∀ v, o.breakDuration = some v → (mergeOptions o).breakDuration = v) ∧
    ((o.daysAhead = none → (mergeOptions o).daysAhead = 7) ∧
      ∀ v, o.daysAhead = some v → (mergeOptions o).daysAhead = v) ∧
    (∀ store userId today, findAvailableSlots store userId today o =
      findAvailableSlotsCore store userId today (mergeOptions o)) ∧
    (∀ store userId today syl, autoScheduleSessions store userId today syl o =
      autoScheduleSessionsCore store userId today syl (mergeOptions o)) := by
  refine ⟨⟨?_, ?_⟩, ⟨?_, ?_⟩, ⟨?_, ?_⟩, ⟨?_, ?_⟩, ⟨?_, ?_⟩, fun _ _ _ => rfl,
    fun _ _ _ _ => rfl⟩ <;>
    first
      | (intro h; simp [mergeOptions, h, DEFAULT_SCHEDULING_OPTIONS])
      | (intro v h; simp [mergeOptions, h])

/-- C10 witness: the defaulting theorem at a concrete partial options
value that supplies two fields and omits three. -/
theorem C10_optionDefaulting_witness :
    (mergeOptions { preferredStartHour := some 8, daysAhead := some 3 }).preferredStartHour = 8 ∧
      (mergeOptions { preferredStartHour := some 8, daysAhead := some 3 }).daysAhead = 3 ∧
      (mergeOptions { preferredStartHour := some 8, daysAhead := some 3 }).sessionDuration = 45 ∧
      (mergeOptions { preferredStartHour := some 8, daysAhead := some 3 }).breakDuration = 15 ∧
      (mergeOptions { preferredStartHour := some 8, daysAhead := some 3 }).preferredEndHour =
        21 := by
  refine ⟨(C10_optionDefaulting _).1.2 8 rfl, ?_, ?_, ?_, ?_⟩
  · exact (C10_optionDefaulting { preferredStartHour := some 8, daysAhead := some 3 }).2.2.2.2.1.2
      3 rfl
  · exact (C10_optionDefaulting { preferredStartHour := some 8, daysAhead := some 3 }).2.2.1.1 rfl
  · exact (C10_optionDefaulting { preferredStartHour := some 8, daysAhead := some 3 }).2.2.2.1.1
      rfl
  · exact (C10_optionDefaulting { preferredStartHour := some 8, daysAhead := some 3 }).2.1.1 rfl

/-- The second session of the run `autoScheduleSessions [] "u" 0 sylT
(no options)`: the 15-minute tail session 10:00–10:15 of day 0. -/
def sessT2 : StudySession :=
  { toSessionData := ⟨"Study: T", "", "sub", "syl", "T", 600, 615, false, "", "study"⟩,
    id := 1, userId := "u" }

/-! ### C7 -/

/-- Every session created by the topic loop is at least 15 minutes
long. -/
theorem allocTopic_duration (opts : SchedulingOptions) (userId : String) (syl : Syllabus)
    (topic : SyllabusTopic) (required : Int) :
    ∀ (store : List StoredDoc) (scheduled : Int) (slots : List TimeSlot) (s : StudySession),
      s ∈ (allocTopic opts userId syl topic required store scheduled slots).2.1 →
      15 ≤ s.endTime - s.startTime := by
  intro store scheduled slots
  induction store, scheduled, slots using allocTopic.induct opts userId syl topic required with
  | case1 store scheduled => intro s hs; rw [allocTopic.eq_1] at hs; simp at hs
  | case2 store scheduled slot rest hreq sd sm hmin ss se r ns hadv ih =>
    intro s hs
    rw [allocTopic_emit _ _ _ _ _ _ _ _ _ hreq hmin] at hs
    simp only [if_pos hadv, List.mem_cons] at hs
    rcases hs with rfl | hs
    · simp only [createSession, sessionDataFor]
      rw [add_sub_cancel_left]
      exact hmin
    · exact ih s hs
  | case3 store scheduled slot rest hreq sd sm hmin ss se r ns hadv ih =>
    intro s hs
    rw [allocTopic_emit _ _ _ _ _ _ _ _ _ hreq hmin] at hs
    simp only [if_neg hadv, List.mem_cons] at hs
    rcases hs with rfl | hs
    · simp only [createSession, sessionDataFor]
      rw [add_sub_cancel_left]
      exact hmin
    · exact ih s hs
  | case4 store scheduled slot rest hreq sd sm hmin ih =>
    intro s hs
    rw [allocTopic_skip _ _ _ _ _ _ _ _ _ hreq hmin] at hs
    exact ih s hs
  | case5 store scheduled slot rest hreq =>
    intro s hs
    rw [allocTopic_exit _ _ _ _ _ _ _ _ _ hreq] at hs
    simp at hs

/-- Lift of `allocTopic_duration` over the outer topic loop. -/
theorem allocTopics_duration (opts : SchedulingOptions) (userId : String) (syl : Syllabus) :
    ∀ (ts : List SyllabusTopic) (store : List StoredDoc) (slots : List TimeSlot)
      (s : StudySession), s ∈ (allocTopics opts userId syl store ts slots).2 →
      15 ≤ s.endTime - s.startTime := by
  intro ts
  induction ts with
  | nil => intro store slots s hs; simp [allocTopics] at hs
  | cons topic ts ih =>
    intro store slots s hs
    rw [allocTopics] at hs
    rcases List.mem_append.mp hs with hs | hs
    · exact allocTopic_duration opts userId syl topic _ store 0 slots s hs
    · exact ih _ _ s hs

/-- C7: every session emitted by the allocator lasts at least 15
minutes, and whenever the candidate allocation
`min(sessionDuration, slotDuration, remaining)` falls below 15 the loop
emits nothing from the current slot and advances to the next one. -/
theorem C7_minimumSessionFloor :
    (∀ (store : List StoredDoc) (userId : String) (today : Minutes) (syl : Syllabus)
        (o : PartialSchedulingOptions) (s : StudySession),
        s ∈ (autoScheduleSessions store userId today syl o).2 →
        15 ≤ s.endTime - s.startTime) ∧
    (∀ (opts : SchedulingOptions) (userId : String) (syl : Syllabus) (topic : SyllabusTopic)
        (required : Int) (store : List StoredDoc) (scheduled : Int) (slot : TimeSlot)
        (rest : List TimeSlot), scheduled < required →
        min opts.sessionDuration (min (slot.stop - slot.start) (required - scheduled)) < 15 →
        allocTopic opts userId syl topic required store scheduled (slot :: rest) =
          allocTopic opts userId syl topic required store scheduled rest) := by
  constructor
  · intro store userId today syl o s hs
    unfold autoScheduleSessions autoScheduleSessionsCore at hs
    by_cases h : (incompleteTopics syl).isEmpty
    · simp [h] at hs
    · simp only [h, Bool.false_eq_true, if_false] at hs
      exact allocTopics_duration (mergeOptions o) userId syl (incompleteTopics syl) store _ s hs
  · intro opts userId syl topic required store scheduled slot rest hreq hmin
    exact allocTopic_skip opts userId syl topic required store scheduled slot rest hreq
      (by omega)

/-- C7 witness: the floor theorem applied to a session of a concrete
run, and the skip equation at a concrete too-small candidate. -/
theorem C7_minimumSessionFloor_witness :
    15 ≤ sessT2.endTime - sessT2.startTime ∧
      allocTopic DEFAULT_SCHEDULING_OPTIONS "u" sylT topicT 60 [] 50 [⟨0, 1000⟩] =
        allocTopic DEFAULT_SCHEDULING_OPTIONS "u" sylT topicT 60 [] 50 [] := by
  refine ⟨?_, ?_⟩
  · exact C7_minimumSessionFloor.1 [] "u" 0 sylT {} sessT2
      (by rw [autoScheduleSessions_eq_run]; decide)
  · exact C7_minimumSessionFloor.2 DEFAULT_SCHEDULING_OPTIONS "u" sylT topicT 60 [] 50 ⟨0, 1000⟩
      [] (by decide) (by decide)

/-! ### C5 -/

/-- Inserting a topic whose priority is `p` leaves it in front of the
`p`-priority subsequence: every element skipped by `orderedInsert` has a
strictly smaller `priorityOrder`, hence a different priority. -/
theorem filter_orderedInsert_of_eq (p : Priority) (x : SyllabusTopic)
    (hx : x.priority = p) :
    ∀ l : List SyllabusTopic,
      (List.orderedInsert topicLE x l).filter (fun t => decide (t.priority = p)) =
        x :: l.filter fun t => decide (t.priority = p) := by
  intro l
  induction l with
  | nil => simp [List.orderedInsert, hx]
  | cons b l ih =>
    rw [List.orderedInsert]
    by_cases h : topicLE x b
    · rw [if_pos h]
      simp [hx]
    · rw [if_neg h]
      have hb : ¬b.priority = p := by
        intro hbp
        apply h
        show priorityOrder x.priority ≤ priorityOrder b.priority
        rw [hx, hbp]
      rw [List.filter_cons_of_neg (by simpa using hb), ih,
        List.filter_cons_of_neg (by simpa using hb)]

/-- Inserting a topic whose priority is not `p` does not disturb the
`p`-priority subsequence. -/
theorem filter_orderedInsert_of_ne (p : Priority) (x : SyllabusTopic)
    (hx : ¬x.priority = p) :
    ∀ l : List SyllabusTopic,
      (List.orderedInsert topicLE x l).filter (fun t => decide (t.priority = p)) =
        l.filter fun t => decide (t.priority = p) := by
  intro l
  induction l with
  | nil => simp [List.orderedInsert, hx]
  | cons b l ih =>
    rw [List.orderedInsert]
    by_cases h : topicLE x b
    · rw [if_pos h]
      simp [hx]
    · rw [if_neg h]
      by_cases hb : b.priority = p
      · rw [List.filter_cons_of_pos (by simpa using hb), ih,
          List.filter_cons_of_pos (by simpa using hb)]
      · rw [List.filter_cons_of_neg (by simpa using hb), ih,
          List.filter_cons_of_neg (by simpa using hb)]

/-- The priority sort is stable: for every priority level the
subsequence of topics of that level is unchanged. -/
theorem filter_insertionSort_priority (p : Priority) :
    ∀ l : List SyllabusTopic,
      (List.insertionSort topicLE l).filter (fun t => decide (t.priority = p)) =
        l.filter fun t => decide (t.priority = p) := by
  intro l
  induction l with
  | nil => rfl
  | cons x l ih =>
    rw [List.insertionSort]
    by_cases hx : x.priority = p
    · rw [filter_orderedInsert_of_eq p x hx, ih,
        List.filter_cons_of_pos (by simpa using hx)]
    · rw [filter_orderedInsert_of_ne p x hx, ih,
        List.filter_cons_of_neg (by simpa using hx)]

/-- C5: before allocation the engine keeps exactly the topics whose
status is neither `completed` nor `skipped`, sorts them by the total
order critical < high < medium < low (critical first) stably — the
subsequence of each priority level keeps the caller's input order — and
consequently, with a one-hour low topic declared before a one-hour
critical topic and a single slot big enough for only one session, the
emitted session belongs to the critical topic. -/
theorem C5_priorityOrdering :
    (∀ (syl : Syllabus) (t : SyllabusTopic),
        t ∈ incompleteTopics syl ↔
          t ∈ syl.topics ∧ t.status ≠ TopicStatus.completed ∧ t.status ≠ TopicStatus.skipped) ∧
    (∀ syl : Syllabus, (incompleteTopics syl).Pairwise topicLE) ∧
    (∀ (syl : Syllabus) (p : Priority),
        (incompleteTopics syl).filter (fun t => decide (t.priority = p)) =
          (syl.topics.filter fun t =>
            decide (t.status ≠ TopicStatus.completed ∧ t.status ≠ TopicStatus.skipped)).filter
            fun t => decide (t.priority = p)) ∧
    (autoScheduleSessions [] "u" 0 sylLowCrit
        { preferredEndHour := some 10, daysAhead := some 1 }).2.map (fun s => s.topicId) =
      ["C"] := by
  refine ⟨?_, ?_, ?_, ?_⟩
  · intro syl t
    simp [incompleteTopics, List.mem_filter, and_assoc]
  · intro syl
    exact List.sorted_insertionSort topicLE _
  · intro syl p
    rw [incompleteTopics, filter_insertionSort_priority]
  · rw [autoScheduleSessions_eq_run]
    decide

/-! ### C6 -/

/-- Every session the topic loop emits is tagged with that topic's id. -/
theorem allocTopic_topicId (opts : SchedulingOptions) (userId : String) (syl : Syllabus)
    (topic : SyllabusTopic) (required : Int) :
    ∀ (store : List StoredDoc) (scheduled : Int) (slots : List TimeSlot) (s : StudySession),
      s ∈ (allocTopic opts userId syl topic required store scheduled slots).2.1 →
      s.topicId = topic.id := by
  intro store scheduled slots
  induction store, scheduled, slots using allocTopic.induct opts userId syl topic required with
  | case1 store scheduled => intro s hs; rw [allocTopic.eq_1] at hs; simp at hs
  | case2 store scheduled slot rest hreq sd sm hmin ss se r ns hadv ih =>
    intro s hs
    rw [allocTopic_emit _ _ _ _ _ _ _ _ _ hreq hmin] at hs
    simp only [if_pos hadv, List.mem_cons] at hs
    rcases hs with rfl | hs
    · rfl
    · exact ih s hs
  | case3 store scheduled slot rest hreq sd sm hmin ss se r ns hadv ih =>
    intro s hs
    rw [allocTopic_emit _ _ _ _ _ _ _ _ _ hreq hmin] at hs
    simp only [if_neg hadv, List.mem_cons] at hs
    rcases hs with rfl | hs
    · rfl
    · exact ih s hs
  | case4 store scheduled slot rest hreq sd sm hmin ih =>
    intro s hs
    rw [allocTopic_skip _ _ _ _ _ _ _ _ _ hreq hmin] at hs
    exact ih s hs
  | case5 store scheduled slot rest hreq =>
    intro s hs
    rw [allocTopic_exit _ _ _ _ _ _ _ _ _ hreq] at hs
    simp at hs

/-- The minutes the topic loop allocates never exceed the topic's
remaining requirement (and never drop below zero). -/
theorem allocTopic_sum_le (opts : SchedulingOptions) (userId : String) (syl : Syllabus)
    (topic : SyllabusTopic) (required : Int) :
    ∀ (store : List StoredDoc) (scheduled : Int) (slots : List TimeSlot),
      (((allocTopic opts userId syl topic required store scheduled slots).2.1.map
          fun s => s.endTime - s.startTime).sum) ≤ max (required - scheduled) 0 := by
  intro store scheduled slots
  induction store, scheduled, slots using allocTopic.induct opts userId syl topic required with
  | case1 store scheduled => rw [allocTopic.eq_1]; simp
  | case2 store scheduled slot rest hreq sd sm hmin ss se r ns hadv ih =>
    rw [allocTopic_emit _ _ _ _ _ _ _ _ _ hreq hmin]
    simp only [if_pos hadv, List.map_cons, List.sum_cons]
    have h1 : sm ≤ required - scheduled := le_trans (min_le_right _ _) (min_le_right _ _)
    have h15 : 15 ≤ sm := hmin
    show (createSession store userId (sessionDataFor syl topic ss se)).2.endTime -
        (createSession store userId (sessionDataFor syl topic ss se)).2.startTime +
        (List.map (fun s => s.endTime - s.startTime)
          (allocTopic opts userId syl topic required r.1 (scheduled + sm) rest).2.1).sum ≤
      max (required - scheduled) 0
    have h2 : (createSession store userId (sessionDataFor syl topic ss se)).2.endTime -
        (createSession store userId (sessionDataFor syl topic ss se)).2.startTime = sm := by
      simp only [createSession, sessionDataFor]
      rw [add_sub_cancel_left]
    rw [h2]
    rw [max_eq_left (by omega : (0 : Int) ≤ required - scheduled)]
    rw [max_eq_left (by omega : (0 : Int) ≤ required - (scheduled + sm))] at ih
    linarith [ih]
  | case3 store scheduled slot rest hreq sd sm hmin ss se r ns hadv ih =>
    rw [allocTopic_emit _ _ _ _ _ _ _ _ _ hreq hmin]
    simp only [if_neg hadv, List.map_cons, List.sum_cons]
    have h1 : sm ≤ required - scheduled := le_trans (min_le_right _ _) (min_le_right _ _)
    have h15 : 15 ≤ sm := hmin
    show (createSession store userId (sessionDataFor syl topic ss se)).2.endTime -
        (createSession store userId (sessionDataFor syl topic ss se)).2.startTime +
        (List.map (fun s => s.endTime - s.startTime)
          (allocTopic opts userId syl topic required r.1 (scheduled + sm)
            (⟨ns, slot.stop⟩ :: rest)).2.1).sum ≤
      max (required - scheduled) 0
    have h2 : (createSession store userId (sessionDataFor syl topic ss se)).2.endTime -
        (createSession store userId (sessionDataFor syl topic ss se)).2.startTime = sm := by
      simp only [createSession, sessionDataFor]
      rw [add_sub_cancel_left]
    rw [h2]
    rw [max_eq_left (by omega : (0 : Int) ≤ required - scheduled)]
    rw [max_eq_left (by omega : (0 : Int) ≤ required - (scheduled + sm))] at ih
    linarith [ih]
  | case4 store scheduled slot rest hreq sd sm hmin ih =>
    rw [allocTopic_skip _ _ _ _ _ _ _ _ _ hreq hmin]
    exact ih
  | case5 store scheduled slot rest hreq =>
    rw [allocTopic_exit _ _ _ _ _ _ _ _ _ hreq]
    simp

/-- Every session emitted by the outer loop carries the id of one of the
processed topics. -/
theorem allocTopics_topicId_mem (opts : SchedulingOptions) (userId : String) (syl : Syllabus) :
    ∀ (ts : List SyllabusTopic) (store : List StoredDoc) (slots : List TimeSlot)
      (s : StudySession), s ∈ (allocTopics opts userId syl store ts slots).2 →
      s.topicId ∈ ts.map SyllabusTopic.id := by
  intro ts
  induction ts with
  | nil => intro store slots s hs; simp [allocTopics] at hs
  | cons topic ts ih =>
    intro store slots s hs
    rw [allocTopics] at hs
    rcases List.mem_append.mp hs with hs | hs
    · exact List.mem_cons.mpr (Or.inl (allocTopic_topicId opts userId syl topic _ store 0 slots
        s hs))
    · exact List.mem_cons.mpr (Or.inr (ih _ _ s hs))

/-- Per-topic capacity bound over the outer loop: with pairwise distinct
topic ids, the minutes allocated to sessions carrying `t.id` never
exceed `t.estimatedHours * 60` (clamped below by zero). -/
theorem allocTopics_sum_le (opts : SchedulingOptions) (userId : String) (syl : Syllabus)
    (t : SyllabusTopic) :
    ∀ (ts : List SyllabusTopic) (store : List StoredDoc) (slots : List TimeSlot),
      (ts.map SyllabusTopic.id).Nodup →
      (∀ t2 ∈ ts, t2.id = t.id → t2 = t) →
      ((((allocTopics opts userId syl store ts slots).2.filter
          fun s => decide (s.topicId = t.id)).map fun s => s.endTime - s.startTime).sum) ≤
        max (t.estimatedHours * 60) 0 := by
  intro ts
  induction ts with
  | nil =>
    intro store slots _ _
    simp [allocTopics]
  | cons topic ts ih =>
    intro store slots hnd hinj
    rw [allocTopics]
    simp only [List.filter_append, List.map_append, List.sum_append]
    rw [List.map_cons] at hnd
    rcases List.nodup_cons.mp hnd with ⟨hhead, htail⟩
    by_cases hid : topic.id = t.id
    · have htt : topic = t := hinj topic (List.mem_cons_self _ _) hid
      subst htt
      have hrest : ((allocTopics opts userId syl
          (allocTopic opts userId syl topic (topic.estimatedHours * 60) store 0 slots).1 ts
          (allocTopic opts userId syl topic (topic.estimatedHours * 60) store 0 slots).2.2).2.filter
            fun s => decide (s.topicId = topic.id)) = [] := by
        apply List.filter_eq_nil_iff.mpr
        intro s hs
        have hmem := allocTopics_topicId_mem opts userId syl ts _ _ s hs
        simp only [decide_eq_true_eq]
        intro hcon
        rw [hcon] at hmem
        exact hhead hmem
      rw [hrest]
      have hall : ((allocTopic opts userId syl topic (topic.estimatedHours * 60) store 0
          slots).2.1.filter fun s => decide (s.topicId = topic.id)) =
          (allocTopic opts userId syl topic (topic.estimatedHours * 60) store 0 slots).2.1 := by
        apply List.filter_eq_self.mpr
        intro s hs
        simp only [decide_eq_true_eq]
        rw [allocTopic_topicId opts userId syl topic _ store 0 slots s hs]
      rw [hall]
      have hb := allocTopic_sum_le opts userId syl topic (topic.estimatedHours * 60) store 0 slots
      simpa using hb
    · have hhd : ((allocTopic opts userId syl topic (topic.estimatedHours * 60) store 0
          slots).2.1.filter fun s => decide (s.topicId = t.id)) = [] := by
        apply List.filter_eq_nil_iff.mpr
        intro s hs
        simp only [decide_eq_true_eq]
        rw [allocTopic_topicId opts userId syl topic _ store 0 slots s hs]
        exact hid
      rw [hhd]
      simpa using ih _ _ htail fun t2 h2 => hinj t2 (List.mem_cons_of_mem _ h2)

/-- Topics surviving the status filter are topics of the syllabus. -/
theorem mem_incompleteTopics_sub (syl : Syllabus) (t : SyllabusTopic)
    (h : t ∈ incompleteTopics syl) : t ∈ syl.topics := by
  have := (List.mem_insertionSort topicLE).mp h
  exact (List.mem_filter.mp this).1

/-- The ids of the filtered-and-sorted topics stay pairwise distinct. -/
theorem incompleteTopics_nodup (syl : Syllabus)
    (hnd : (syl.topics.map SyllabusTopic.id).Nodup) :
    ((incompleteTopics syl).map SyllabusTopic.id).Nodup := by
  have hperm : List.Perm ((incompleteTopics syl).map SyllabusTopic.id)
      ((syl.topics.filter fun t =>
        decide (t.status ≠ TopicStatus.completed ∧ t.status ≠ TopicStatus.skipped)).map
          SyllabusTopic.id) :=
    (List.perm_insertionSort topicLE _).map _
  refine hperm.nodup_iff.mpr ?_
  exact List.Nodup.sublist (List.Sublist.map _ (List.filter_sublist _)) hnd

/-- C6: for every topic of the syllabus (topic ids pairwise distinct,
estimated hours non-negative), the total duration in minutes of the
sessions the allocator emits for that topic never exceeds
`estimatedHours * 60`. -/
theorem C6_capacityBound (store : List StoredDoc) (userId : String) (today : Minutes)
    (syl : Syllabus) (o : PartialSchedulingOptions) (t : SyllabusTopic)
    (hnd : (syl.topics.map SyllabusTopic.id).Nodup)
    (ht : t ∈ syl.topics) (hh : 0 ≤ t.estimatedHours) :
    ((((autoScheduleSessions store userId today syl o).2.filter
        fun s => decide (s.topicId = t.id)).map fun s => s.endTime - s.startTime).sum) ≤
      t.estimatedHours * 60 := by
  have hmax : max (t.estimatedHours * 60) 0 = t.estimatedHours * 60 :=
    max_eq_left (by positivity)
  unfold autoScheduleSessions autoScheduleSessionsCore
  by_cases h : (incompleteTopics syl).isEmpty
  · simp [h]
    exact hh
  · simp only [h, Bool.false_eq_true, if_false]
    rw [← hmax]
    apply allocTopics_sum_le
    · exact incompleteTopics_nodup syl hnd
    · intro t2 h2 hid
      exact List.inj_on_of_nodup_map hnd (mem_incompleteTopics_sub syl t2 h2) ht hid

/-- C6 witness: the capacity bound at a concrete run (one-hour topic,
default options): the allocated minutes for the topic are bounded by 60. -/
theorem C6_capacityBound_witness :
    ((((autoScheduleSessions [] "u" 0 sylT {}).2.filter
        fun s => decide (s.topicId = topicT.id)).map fun s => s.endTime - s.startTime).sum) ≤
      topicT.estimatedHours * 60 :=
  C6_capacityBound [] "u" 0 sylT {} topicT (by decide) (by decide) (by decide)

/-! ### C1: slot-level invariants -/

/-- An interval `[s, e)` is clear of a booking `[bs, be)` under break
`brk`: it either ends no later than the booking starts, or begins at
least `brk` minutes after the booking ends. -/
def ClearOf (brk s e bs be : Int) : Prop := e ≤ bs ∨ be + brk ≤ s

/-- Start of day `day`'s preferred window. -/
def dayStartOf (opts : SchedulingOptions) (today : Minutes) (day : Nat) : Minutes :=
  setHours (today + minutesPerDay * day) opts.preferredStartHour

/-- End of day `day`'s preferred window. -/
def dayEndOf (opts : SchedulingOptions) (today : Minutes) (day : Nat) : Minutes :=
  setHours (today + minutesPerDay * day) opts.preferredEndHour

theorem setHours_addDay (t h : Int) (d : Nat) :
    setHours (t + minutesPerDay * d) h = setHours t h + minutesPerDay * d := by
  unfold setHours minutesPerDay
  have hdiv : (t + 1440 * (d : Int)).fdiv 1440 = t.fdiv 1440 + d := by
    rw [Int.fdiv_eq_ediv _ (by norm_num), Int.fdiv_eq_ediv _ (by norm_num)]
    rw [mul_comm (1440 : Int) (d : Int)]
    exact Int.add_mul_ediv_right t d (by norm_num)
  rw [hdiv]
  ring

theorem dayStartOf_eq (opts : SchedulingOptions) (today : Minutes) (day : Nat) :
    dayStartOf opts today day =
      setHours today opts.preferredStartHour + minutesPerDay * day :=
  setHours_addDay today opts.preferredStartHour day

theorem dayEndOf_eq (opts : SchedulingOptions) (today : Minutes) (day : Nat) :
    dayEndOf opts today day = setHours today opts.preferredEndHour + minutesPerDay * day :=
  setHours_addDay today opts.preferredEndHour day

theorem setHours_sub_same (t h1 h2 : Int) :
    setHours t h1 - setHours t h2 = (h1 - h2) * 60 := setHours_sub t h1 h2

theorem setHours_le_add (t h : Int) (hh : h ≤ 24) : setHours t h ≤ t + 1440 := by
  unfold setHours minutesPerDay
  have h1 : t.fdiv 1440 * 1440 ≤ t := by
    rw [Int.fdiv_eq_ediv _ (by norm_num)]
    exact Int.ediv_mul_le t (by norm_num)
  omega

/-- The gap walk of one day: every emitted slot starts at or after the
cursor, ends by the end of the window, and is clear of every booking of
the walked list; moreover consecutive slots are separated by the break
buffer after an intervening booking. -/
theorem findGaps_inv (opts : SchedulingOptions) (dayEnd : Minutes) :
    ∀ (L : List StudySession) (cursor : Minutes),
      List.Pairwise (fun a b => a.endTime ≤ b.startTime) L →
      (∀ b ∈ L, b.startTime ≤ b.endTime) →
      (∀ b ∈ L, cursor ≤ b.endTime + opts.breakDuration) →
      (∀ b ∈ L, b.startTime ≤ dayEnd) →
      (∀ sl ∈ findGaps opts dayEnd L cursor,
        cursor ≤ sl.start ∧ sl.stop ≤ dayEnd ∧
          ∀ b ∈ L, sl.stop ≤ b.startTime ∨ b.endTime + opts.breakDuration ≤ sl.start) ∧
      List.Pairwise (fun s1 s2 => s1.stop + opts.breakDuration ≤ s2.start)
        (findGaps opts dayEnd L cursor) := by
  intro L
  induction L with
  | nil =>
    intro cursor _ _ _ _
    constructor
    · intro sl hsl
      rw [findGaps] at hsl
      by_cases hfit : opts.sessionDuration ≤ dayEnd - cursor
      · rw [if_pos hfit] at hsl
        rcases List.mem_singleton.mp hsl with rfl
        exact ⟨le_refl _, le_refl _, by simp⟩
      · rw [if_neg hfit] at hsl
        simp at hsl
    · rw [findGaps]
      by_cases hfit : opts.sessionDuration ≤ dayEnd - cursor
      · rw [if_pos hfit]; simp
      · rw [if_neg hfit]; simp
  | cons b rest ih =>
    intro cursor hpw hse hcur hde
    have hpwh := List.pairwise_cons.mp hpw
    have ihr := ih (b.endTime + opts.breakDuration) hpwh.2
      (fun x hx => hse x (List.mem_cons_of_mem _ hx))
      (fun x hx => by
        have h1 : b.endTime ≤ x.startTime := hpwh.1 x hx
        have h2 : x.startTime ≤ x.endTime := hse x (List.mem_cons_of_mem _ hx)
        linarith)
      (fun x hx => hde x (List.mem_cons_of_mem _ hx))
    have hcurb : cursor ≤ b.endTime + opts.breakDuration := hcur b (List.mem_cons_self _ _)
    have hseb : b.startTime ≤ b.endTime := hse b (List.mem_cons_self _ _)
    rw [findGaps]
    constructor
    · intro sl hsl
      rcases List.mem_append.mp hsl with hsl | hsl
      · have hsl2 : sl = ⟨cursor, b.startTime⟩ := by
          by_cases hfit : opts.sessionDuration ≤ b.startTime - cursor
          · rw [if_pos hfit] at hsl
            exact List.mem_singleton.mp hsl
          · rw [if_neg hfit] at hsl
            simp at hsl
        subst hsl2
        refine ⟨le_refl _, hde b (List.mem_cons_self _ _), ?_⟩
        intro x hx
        rcases List.mem_cons.mp hx with rfl | hx
        · exact Or.inl (le_refl _)
        · exact Or.inl (le_trans hseb (hpwh.1 x hx))
      · rcases ihr.1 sl hsl with ⟨h1, h2, h3⟩
        refine ⟨le_trans hcurb h1, h2, ?_⟩
        intro x hx
        rcases List.mem_cons.mp hx with rfl | hx
        · exact Or.inr h1
        · exact h3 x hx
    · apply List.pairwise_append.mpr
      refine ⟨?_, ihr.2, ?_⟩
      · by_cases hfit : opts.sessionDuration ≤ b.startTime - cursor
        · rw [if_pos hfit]; simp
        · rw [if_neg hfit]; simp
      · intro s1 h1 s2 h2
        have hs1 : s1 = ⟨cursor, b.startTime⟩ := by
          by_cases hfit : opts.sessionDuration ≤ b.startTime - cursor
          · rw [if_pos hfit] at h1
            exact List.mem_singleton.mp h1
          · rw [if_neg hfit] at h1
            simp at h1
        subst hs1
        have h2s := (ihr.1 s2 h2).1
        show b.startTime + opts.breakDuration ≤ s2.start
        linarith

/-- Day-level slot soundness: every slot of one day's walk lies inside
the day's preferred window, is clear of every session whose start falls
in that window, and consecutive slots are break-separated. -/
theorem slotsForDay_inv (opts : SchedulingOptions) (F : List StudySession) (today : Minutes)
    (day : Nat) (hbrk : 0 ≤ opts.breakDuration)
    (hF : List.Pairwise (fun a b => a.endTime ≤ b.startTime ∨ b.endTime ≤ a.startTime) F)
    (hFse : ∀ b ∈ F, b.startTime < b.endTime) :
    (∀ sl ∈ slotsForDay opts F today day,
      dayStartOf opts today day ≤ sl.start ∧ sl.stop ≤ dayEndOf opts today day ∧
        ∀ b ∈ F, dayStartOf opts today day ≤ b.startTime →
          b.startTime ≤ dayEndOf opts today day →
          (sl.stop ≤ b.startTime ∨ b.endTime + opts.breakDuration ≤ sl.start)) ∧
    List.Pairwise (fun s1 s2 => s1.stop + opts.breakDuration ≤ s2.start)
      (slotsForDay opts F today day) := by
  have hsfd : slotsForDay opts F today day =
      findGaps opts (dayEndOf opts today day)
        (List.insertionSort startTimeLE (F.filter fun s =>
          decide (dayStartOf opts today day ≤ s.startTime ∧
            s.startTime ≤ dayEndOf opts today day)))
        (dayStartOf opts today day) := rfl
  have hmem : ∀ x : StudySession,
      x ∈ List.insertionSort startTimeLE (F.filter fun s =>
        decide (dayStartOf opts today day ≤ s.startTime ∧
          s.startTime ≤ dayEndOf opts today day)) ↔
      x ∈ F ∧ dayStartOf opts today day ≤ x.startTime ∧
        x.startTime ≤ dayEndOf opts today day := by
    intro x
    rw [List.mem_insertionSort, List.mem_filter]
    simp
  have hsort := List.sorted_insertionSort startTimeLE (F.filter fun s =>
    decide (dayStartOf opts today day ≤ s.startTime ∧ s.startTime ≤ dayEndOf opts today day))
  have hfil : List.Pairwise (fun a b => a.endTime ≤ b.startTime ∨ b.endTime ≤ a.startTime)
      (F.filter fun s => decide (dayStartOf opts today day ≤ s.startTime ∧
        s.startTime ≤ dayEndOf opts today day)) :=
    List.Pairwise.sublist (List.filter_sublist F) hF
  have hLnov : List.Pairwise (fun a b => a.endTime ≤ b.startTime ∨ b.endTime ≤ a.startTime)
      (List.insertionSort startTimeLE (F.filter fun s =>
        decide (dayStartOf opts today day ≤ s.startTime ∧
          s.startTime ≤ dayEndOf opts today day))) :=
    (List.Perm.pairwise_iff (fun h => h.symm)
      (List.perm_insertionSort startTimeLE _)).mpr hfil
  have hchain : List.Pairwise (fun a b => a.endTime ≤ b.startTime)
      (List.insertionSort startTimeLE (F.filter fun s =>
        decide (dayStartOf opts today day ≤ s.startTime ∧
          s.startTime ≤ dayEndOf opts today day))) := by
    refine (hsort.and hLnov).imp_of_mem ?_
    intro a b ha hb h
    have hbF : b ∈ F := ((hmem b).mp hb).1
    have hblt : b.startTime < b.endTime := hFse b hbF
    have h1 : a.startTime ≤ b.startTime := h.1
    rcases h.2 with h2 | h2
    · exact h2
    · linarith
  have hwalk := findGaps_inv opts (dayEndOf opts today day) _ (dayStartOf opts today day) hchain
    (fun b hb => le_of_lt (hFse b ((hmem b).mp hb).1))
    (fun b hb => by
      have h1 := ((hmem b).mp hb).2.1
      have h2 := hFse b ((hmem b).mp hb).1
      linarith)
    (fun b hb => ((hmem b).mp hb).2.2)
  rw [hsfd]
  refine ⟨?_, hwalk.2⟩
  intro sl hsl
  rcases hwalk.1 sl hsl with ⟨h1, h2, h3⟩
  refine ⟨h1, h2, ?_⟩
  intro b hbF hw1 hw2
  exact h3 b ((hmem b).mpr ⟨hbF, hw1, hw2⟩)

/-- Every fetched session comes from a stored document of the user with
its start time inside the queried range. -/
theorem mem_getSessionsInRange (store : List StoredDoc) (u : String) (a b : Minutes)
    (f : StudySession) (hf : f ∈ getSessionsInRange store u a b) :
    ∃ d ∈ store, d.userId = u ∧ f.toSessionData = d.data ∧ a ≤ d.data.startTime ∧
      d.data.startTime ≤ b := by
  unfold getSessionsInRange at hf
  rw [List.mem_insertionSort] at hf
  rcases List.mem_map.mp hf with ⟨pr, hpr, rfl⟩
  rcases List.mem_filter.mp hpr with ⟨hpre, hprop⟩
  rcases of_decide_eq_true hprop with ⟨hu, h1, h2⟩
  refine ⟨pr.2, ?_, hu, rfl, h1, h2⟩
  have hmm : pr.2 ∈ List.map Prod.snd store.enum := List.mem_map_of_mem _ hpre
  rwa [List.enum_map_snd] at hmm

/-- Every stored document of the user whose start time lies in the
queried range appears in the fetched list. -/
theorem getSessionsInRange_mem (store : List StoredDoc) (u : String) (a b : Minutes)
    (d : StoredDoc) (hd : d ∈ store) (hu : d.userId = u) (h1 : a ≤ d.data.startTime)
    (h2 : d.data.startTime ≤ b) :
    ∃ f ∈ getSessionsInRange store u a b, f.toSessionData = d.data := by
  have hd2 : d ∈ List.map Prod.snd store.enum := by rw [List.enum_map_snd]; exact hd
  rcases List.mem_map.mp hd2 with ⟨pr, hpr, hpr2⟩
  refine ⟨fromDoc pr.1 pr.2, ?_, by rw [hpr2]; rfl⟩
  unfold getSessionsInRange
  rw [List.mem_insertionSort]
  apply List.mem_map_of_mem
  apply List.mem_filter.mpr
  refine ⟨hpr, decide_eq_true ?_⟩
  rw [hpr2]
  exact ⟨hu, h1, h2⟩

/-- Pairwise non-overlap of the user's stored documents transfers to the
fetched list. -/
theorem getSessionsInRange_pairwise (store : List StoredDoc) (u : String) (a b : Minutes)
    (hdisj : store.Pairwise fun d1 d2 => d1.userId = u → d2.userId = u →
      d1.data.endTime ≤ d2.data.startTime ∨ d2.data.endTime ≤ d1.data.startTime) :
    List.Pairwise (fun x y => x.endTime ≤ y.startTime ∨ y.endTime ≤ x.startTime)
      (getSessionsInRange store u a b) := by
  have h1 : List.Pairwise (fun p q : Nat × StoredDoc => p.2.userId = u → q.2.userId = u →
      p.2.data.endTime ≤ q.2.data.startTime ∨ q.2.data.endTime ≤ p.2.data.startTime)
      store.enum := by
    have h0 : List.Pairwise (fun d1 d2 : StoredDoc => d1.userId = u → d2.userId = u →
        d1.data.endTime ≤ d2.data.startTime ∨ d2.data.endTime ≤ d1.data.startTime)
        (List.map Prod.snd store.enum) := by
      rw [List.enum_map_snd]
      exact hdisj
    exact List.pairwise_map.mp h0
  have h2 : List.Pairwise (fun p q : Nat × StoredDoc => p.2.userId = u → q.2.userId = u →
      p.2.data.endTime ≤ q.2.data.startTime ∨ q.2.data.endTime ≤ p.2.data.startTime)
      (store.enum.filter fun p =>
        decide (p.2.userId = u ∧ a ≤ p.2.data.startTime ∧ p.2.data.startTime ≤ b)) :=
    List.Pairwise.sublist (List.filter_sublist store.enum) h1
  have h3 : List.Pairwise (fun p q : Nat × StoredDoc =>
      p.2.data.endTime ≤ q.2.data.startTime ∨ q.2.data.endTime ≤ p.2.data.startTime)
      (store.enum.filter fun p =>
        decide (p.2.userId = u ∧ a ≤ p.2.data.startTime ∧ p.2.data.startTime ≤ b)) := by
    refine h2.imp_of_mem ?_
    intro p q hp hq h
    exact h (of_decide_eq_true (List.mem_filter.mp hp).2).1
      (of_decide_eq_true (List.mem_filter.mp hq).2).1
  have h4 : List.Pairwise (fun x y : StudySession =>
      x.endTime ≤ y.startTime ∨ y.endTime ≤ x.startTime)
      ((store.enum.filter fun p =>
        decide (p.2.userId = u ∧ a ≤ p.2.data.startTime ∧ p.2.data.startTime ≤ b)).map
        fun p => fromDoc p.1 p.2) := List.pairwise_map.mpr h3
  unfold getSessionsInRange
  exact (List.Perm.pairwise_iff (fun h => h.symm)
    (List.perm_insertionSort startTimeLE _)).mpr h4

/-- Horizon-level slot soundness for `findAvailableSlotsCore`: under a
well-formed configuration and bookings each contained in a single day's
preferred window, every computed slot starts no earlier than day 0's
window start and is clear of every stored booking of the user, and the
slot list is break-chained in order. -/
theorem findCore_inv (store : List StoredDoc) (u : String) (today : Minutes)
    (opts : SchedulingOptions)
    (hsh : 0 ≤ opts.preferredStartHour) (heh : opts.preferredEndHour ≤ 24)
    (hbrk : 0 ≤ opts.breakDuration)
    (hgap : opts.breakDuration ≤
      minutesPerDay - 60 * (opts.preferredEndHour - opts.preferredStartHour))
    (hbook : ∀ d ∈ store, d.userId = u → today ≤ d.data.startTime ∧
      d.data.startTime < d.data.endTime ∧
      ∃ k ∈ List.range opts.daysAhead.toNat,
        dayStartOf opts today k ≤ d.data.startTime ∧ d.data.endTime ≤ dayEndOf opts today k)
    (hdisj : store.Pairwise fun d1 d2 => d1.userId = u → d2.userId = u →
      d1.data.endTime ≤ d2.data.startTime ∨ d2.data.endTime ≤ d1.data.startTime) :
    (∀ sl ∈ findAvailableSlotsCore store u today opts,
      setHours today opts.preferredStartHour ≤ sl.start ∧
        ∀ d ∈ store, d.userId = u →
          ClearOf opts.breakDuration sl.start sl.stop d.data.startTime d.data.endTime) ∧
    List.Pairwise (fun s1 s2 => s1.stop + opts.breakDuration ≤ s2.start)
      (findAvailableSlotsCore store u today opts) := by
  have hmpd : minutesPerDay = 1440 := rfl
  have hES : setHours today opts.preferredEndHour - setHours today opts.preferredStartHour =
      (opts.preferredEndHour - opts.preferredStartHour) * 60 :=
    setHours_sub today opts.preferredEndHour opts.preferredStartHour
  have hEb : setHours today opts.preferredEndHour ≤ today + 1440 :=
    setHours_le_add today opts.preferredEndHour heh
  have hgap2 : opts.breakDuration ≤
      1440 - 60 * (opts.preferredEndHour - opts.preferredStartHour) := by
    rw [hmpd] at hgap
    exact hgap
  have hdS : ∀ n : Nat, dayStartOf opts today n =
      setHours today opts.preferredStartHour + 1440 * n := by
    intro n
    rw [dayStartOf_eq, hmpd]
  have hdE : ∀ n : Nat, dayEndOf opts today n =
      setHours today opts.preferredEndHour + 1440 * n := by
    intro n
    rw [dayEndOf_eq, hmpd]
  have hcoreeq : findAvailableSlotsCore store u today opts =
      ((List.range opts.daysAhead.toNat).map
        (slotsForDay opts
          (getSessionsInRange store u today (today + minutesPerDay * opts.daysAhead))
          today)).flatten := rfl
  have hFnov := getSessionsInRange_pairwise store u today
    (today + minutesPerDay * opts.daysAhead) hdisj
  have hFse : ∀ f ∈ getSessionsInRange store u today (today + minutesPerDay * opts.daysAhead),
      f.startTime < f.endTime := by
    intro f hf
    rcases mem_getSessionsInRange store u _ _ f hf with ⟨d, hd, hu, hdata, _, _⟩
    have h2 : f.startTime = d.data.startTime := congrArg SessionData.startTime hdata
    have h3 : f.endTime = d.data.endTime := congrArg SessionData.endTime hdata
    rw [h2, h3]
    exact (hbook d hd hu).2.1
  have hday := fun day => slotsForDay_inv opts
    (getSessionsInRange store u today (today + minutesPerDay * opts.daysAhead)) today day
    hbrk hFnov hFse
  constructor
  · intro sl hsl
    rw [hcoreeq] at hsl
    rcases List.mem_flatten.mp hsl with ⟨l, hl, hsl2⟩
    rcases List.mem_map.mp hl with ⟨day, _, rfl⟩
    rcases (hday day).1 sl hsl2 with ⟨hlo, hhi, hclear⟩
    rw [hdS day] at hlo
    rw [hdE day] at hhi
    constructor
    · have hd0 : (0 : Int) ≤ 1440 * day := by positivity
      linarith
    · intro d hd hu
      rcases hbook d hd hu with ⟨htoday, hlt, k, hkr, hks, hke⟩
      have hkN := List.mem_range.mp hkr
      rw [hdS k] at hks
      rw [hdE k] at hke
      have hc3 : ((opts.daysAhead.toNat : Int)) = opts.daysAhead := by omega
      have hcast : ((k : Int)) + 1 ≤ (opts.daysAhead.toNat : Int) := by exact_mod_cast hkN
      have hrange : d.data.startTime ≤ today + minutesPerDay * opts.daysAhead := by
        rw [hmpd, ← hc3]
        linarith
      rcases getSessionsInRange_mem store u today (today + minutesPerDay * opts.daysAhead) d hd
        hu htoday hrange with ⟨f, hfF, hfdata⟩
      have hfs : f.startTime = d.data.startTime := congrArg SessionData.startTime hfdata
      have hfe : f.endTime = d.data.endTime := congrArg SessionData.endTime hfdata
      unfold ClearOf
      rcases Nat.lt_trichotomy day k with hdk | hdk | hdk
      · refine Or.inl ?_
        have hcast2 : ((day : Int)) + 1 ≤ (k : Int) := by exact_mod_cast hdk
        linarith
      · subst hdk
        have hw1 : dayStartOf opts today day ≤ f.startTime := by
          rw [hfs, hdS day]
          exact hks
        have hw2 : f.startTime ≤ dayEndOf opts today day := by
          rw [hfs, hdE day]
          linarith
        rcases hclear f hfF hw1 hw2 with h | h
        · rw [hfs] at h
          exact Or.inl h
        · rw [hfe] at h
          exact Or.inr h
      · refine Or.inr ?_
        have hcast2 : ((k : Int)) + 1 ≤ (day : Int) := by exact_mod_cast hdk
        linarith
  · rw [hcoreeq]
    apply List.pairwise_flatten.mpr
    constructor
    · intro l hl
      rcases List.mem_map.mp hl with ⟨day, _, rfl⟩
      exact (hday day).2
    · apply List.pairwise_map.mpr
      refine (List.pairwise_lt_range _).imp ?_
      intro d1 d2 hlt x hx y hy
      rcases (hday d1).1 x hx with ⟨_, hx2, _⟩
      rcases (hday d2).1 y hy with ⟨hy1, _, _⟩
      rw [hdE d1] at hx2
      rw [hdS d2] at hy1
      have hcast : ((d1 : Int)) + 1 ≤ (d2 : Int) := by exact_mod_cast hlt
      linarith

/-- Placement invariant of the per-topic loop: starting from
break-chained slots that are clear of every booking and start no
earlier than `lb`, every emitted session starts no earlier than `lb`
and is clear of every booking, consecutive emitted sessions are
break-separated, every emitted session ends at least a break before
every remaining slot begins, and the remaining slots again satisfy the
entry conditions. -/
theorem allocTopic_place (opts : SchedulingOptions) (userId : String) (syl : Syllabus)
    (topic : SyllabusTopic) (required : Int) (B : List (Int × Int))
    (hbrk : 0 ≤ opts.breakDuration) :
    ∀ (store : List StoredDoc) (scheduled : Int) (slots : List TimeSlot) (lb : Int),
      (∀ sl ∈ slots, lb ≤ sl.start) →
      List.Pairwise (fun a b => a.stop + opts.breakDuration ≤ b.start) slots →
      (∀ sl ∈ slots, ∀ pb ∈ B, ClearOf opts.breakDuration sl.start sl.stop pb.1 pb.2) →
      (∀ s ∈ (allocTopic opts userId syl topic required store scheduled slots).2.1,
        lb ≤ s.startTime ∧
          ∀ pb ∈ B, ClearOf opts.breakDuration s.startTime s.endTime pb.1 pb.2) ∧
      List.Pairwise (fun x y => x.endTime + opts.breakDuration ≤ y.startTime)
        (allocTopic opts userId syl topic required store scheduled slots).2.1 ∧
      (∀ s ∈ (allocTopic opts userId syl topic required store scheduled slots).2.1,
        ∀ sl ∈ (allocTopic opts userId syl topic required store scheduled slots).2.2,
          s.endTime + opts.breakDuration ≤ sl.start) ∧
      (∀ sl ∈ (allocTopic opts userId syl topic required store scheduled slots).2.2,
        lb ≤ sl.start ∧
          ∀ pb ∈ B, ClearOf opts.breakDuration sl.start sl.stop pb.1 pb.2) ∧
      List.Pairwise (fun a b => a.stop + opts.breakDuration ≤ b.start)
        (allocTopic opts userId syl topic required store scheduled slots).2.2 := by
  intro store scheduled slots
  induction store, scheduled, slots using allocTopic.induct opts userId syl topic required with
  | case1 store scheduled =>
    intro lb _ _ _
    rw [allocTopic.eq_1]
    refine ⟨?_, List.Pairwise.nil, ?_, ?_, List.Pairwise.nil⟩ <;> simp
  | case2 store scheduled slot rest hreq sd sm hmin ss se r ns hadv ih =>
    intro lb hlb hpw hclear
    have hm1 : (15 : Int) ≤ sm := hmin
    have hm2 : sm ≤ slot.stop - slot.start := le_trans (min_le_right _ _) (min_le_left _ _)
    have hpwc := List.pairwise_cons.mp hpw
    have hlbs : lb ≤ slot.start := hlb slot (List.mem_cons_self _ _)
    have hns : slot.start ≤ ns := by
      show slot.start ≤ slot.start + sm + opts.breakDuration
      linarith
    have ihh := ih ns
      (fun sl2 hsl2 => by
        have h1 := hpwc.1 sl2 hsl2
        show slot.start + sm + opts.breakDuration ≤ sl2.start
        linarith)
      hpwc.2
      (fun sl2 hsl2 => hclear sl2 (List.mem_cons_of_mem _ hsl2))
    rcases ihh with ⟨ihA, ihB, ihC, ihD, ihE⟩
    rw [allocTopic_emit _ _ _ _ _ _ _ _ _ hreq hmin]
    simp only [if_pos hadv]
    have hs0clear : ∀ pb ∈ B,
        ClearOf opts.breakDuration r.2.startTime r.2.endTime pb.1 pb.2 := by
      intro pb hpb
      rcases hclear slot (List.mem_cons_self _ _) pb hpb with h | h
      · refine Or.inl ?_
        show slot.start + sm ≤ pb.1
        have : slot.stop ≤ pb.1 := h
        linarith
      · exact Or.inr h
    refine ⟨?_, ?_, ?_, ?_, ihE⟩
    · intro s hs
      rcases List.mem_cons.mp hs with rfl | hs
      · exact ⟨hlbs, hs0clear⟩
      · rcases ihA s hs with ⟨h1, h2⟩
        refine ⟨?_, h2⟩
        have : slot.start + sm + opts.breakDuration ≤ s.startTime := h1
        linarith
    · apply List.pairwise_cons.mpr
      refine ⟨?_, ihB⟩
      intro s hs
      have h1 := (ihA s hs).1
      show r.2.endTime + opts.breakDuration ≤ s.startTime
      have h2 : r.2.endTime = slot.start + sm := rfl
      rw [h2]
      exact h1
    · intro s hs sl2 hsl2
      rcases List.mem_cons.mp hs with rfl | hs
      · have h1 := (ihD sl2 hsl2).1
        have h2 : r.2.endTime = slot.start + sm := rfl
        rw [h2]
        exact h1
      · exact ihC s hs sl2 hsl2
    · intro sl2 hsl2
      rcases ihD sl2 hsl2 with ⟨h1, h2⟩
      refine ⟨?_, h2⟩
      have : slot.start + sm + opts.breakDuration ≤ sl2.start := h1
      linarith
  | case3 store scheduled slot rest hreq sd sm hmin ss se r ns hadv ih =>
    intro lb hlb hpw hclear
    have hm1 : (15 : Int) ≤ sm := hmin
    have hm2 : sm ≤ slot.stop - slot.start := le_trans (min_le_right _ _) (min_le_left _ _)
    have hpwc := List.pairwise_cons.mp hpw
    have hlbs : lb ≤ slot.start := hlb slot (List.mem_cons_self _ _)
    have ihh := ih ns
      (fun sl2 hsl2 => by
        rcases List.mem_cons.mp hsl2 with rfl | hsl2
        · exact le_refl _
        · have h1 := hpwc.1 sl2 hsl2
          show slot.start + sm + opts.breakDuration ≤ sl2.start
          linarith)
      (by
        apply List.pairwise_cons.mpr
        refine ⟨?_, hpwc.2⟩
        intro sl2 hsl2
        have h1 := hpwc.1 sl2 hsl2
        show slot.stop + opts.breakDuration ≤ sl2.start
        exact h1)
      (by
        intro sl2 hsl2 pb hpb
        rcases List.mem_cons.mp hsl2 with rfl | hsl2
        · rcases hclear slot (List.mem_cons_self _ _) pb hpb with h | h
          · exact Or.inl h
          · refine Or.inr ?_
            show pb.2 + opts.breakDuration ≤ slot.start + sm + opts.breakDuration
            linarith
        · exact hclear sl2 (List.mem_cons_of_mem _ hsl2) pb hpb)
    rcases ihh with ⟨ihA, ihB, ihC, ihD, ihE⟩
    rw [allocTopic_emit _ _ _ _ _ _ _ _ _ hreq hmin]
    simp only [if_neg hadv]
    have hs0clear : ∀ pb ∈ B,
        ClearOf opts.breakDuration r.2.startTime r.2.endTime pb.1 pb.2 := by
      intro pb hpb
      rcases hclear slot (List.mem_cons_self _ _) pb hpb with h | h
      · refine Or.inl ?_
        show slot.start + sm ≤ pb.1
        have : slot.stop ≤ pb.1 := h
        linarith
      · exact Or.inr h
    refine ⟨?_, ?_, ?_, ?_, ihE⟩
    · intro s hs
      rcases List.mem_cons.mp hs with rfl | hs
      · exact ⟨hlbs, hs0clear⟩
      · rcases ihA s hs with ⟨h1, h2⟩
        refine ⟨?_, h2⟩
        have : slot.start + sm + opts.breakDuration ≤ s.startTime := h1
        linarith
    · apply List.pairwise_cons.mpr
      refine ⟨?_, ihB⟩
      intro s hs
      have h1 := (ihA s hs).1
      have h2 : r.2.endTime = slot.start + sm := rfl
      rw [h2]
      exact h1
    · intro s hs sl2 hsl2
      rcases List.mem_cons.mp hs with rfl | hs
      · have h1 := (ihD sl2 hsl2).1
        have h2 : r.2.endTime = slot.start + sm := rfl
        rw [h2]
        exact h1
      · exact ihC s hs sl2 hsl2
    · intro sl2 hsl2
      rcases ihD sl2 hsl2 with ⟨h1, h2⟩
      refine ⟨?_, h2⟩
      have : slot.start + sm + opts.breakDuration ≤ sl2.start := h1
      linarith
  | case4 store scheduled slot rest hreq sd sm hmin ih =>
    intro lb hlb hpw hclear
    rw [allocTopic_skip _ _ _ _ _ _ _ _ _ hreq hmin]
    exact ih lb (fun sl2 hsl2 => hlb sl2 (List.mem_cons_of_mem _ hsl2))
      (List.pairwise_cons.mp hpw).2
      (fun sl2 hsl2 => hclear sl2 (List.mem_cons_of_mem _ hsl2))
  | case5 store scheduled slot rest hreq =>
    intro lb hlb hpw hclear
    rw [allocTopic_exit _ _ _ _ _ _ _ _ _ hreq]
    refine ⟨?_, List.Pairwise.nil, ?_, ?_, hpw⟩
    · simp
    · simp
    · intro sl2 hsl2
      exact ⟨hlb sl2 hsl2, hclear sl2 hsl2⟩

/-- Placement invariant of the outer topic loop: sessions inherit the
lower bound and booking clearance, and the whole emitted sequence is
break-chained in emission order (which is chronological, since the slot
cursor only moves forward). -/
theorem allocTopics_place (opts : SchedulingOptions) (userId : String) (syl : Syllabus)
    (B : List (Int × Int)) (hbrk : 0 ≤ opts.breakDuration) :
    ∀ (ts : List SyllabusTopic) (store : List StoredDoc) (slots : List TimeSlot) (lb : Int),
      (∀ sl ∈ slots, lb ≤ sl.start) →
      List.Pairwise (fun a b => a.stop + opts.breakDuration ≤ b.start) slots →
      (∀ sl ∈ slots, ∀ pb ∈ B, ClearOf opts.breakDuration sl.start sl.stop pb.1 pb.2) →
      (∀ s ∈ (allocTopics opts userId syl store ts slots).2,
        lb ≤ s.startTime ∧
          ∀ pb ∈ B, ClearOf opts.breakDuration s.startTime s.endTime pb.1 pb.2) ∧
      List.Pairwise (fun x y => x.endTime + opts.breakDuration ≤ y.startTime)
        (allocTopics opts userId syl store ts slots).2 := by
  intro ts
  induction ts with
  | nil =>
    intro store slots lb _ _ _
    rw [allocTopics]
    exact ⟨by simp, List.Pairwise.nil⟩
  | cons topic ts ih =>
    intro store slots lb hlb hpw hclear
    rcases allocTopic_place opts userId syl topic (topic.estimatedHours * 60) B hbrk store 0
      slots lb hlb hpw hclear with ⟨pA, pB, pC, pD, pE⟩
    have ih1 := ih (allocTopic opts userId syl topic (topic.estimatedHours * 60) store 0 slots).1
      (allocTopic opts userId syl topic (topic.estimatedHours * 60) store 0 slots).2.2 lb
      (fun sl h => (pD sl h).1) pE (fun sl h => (pD sl h).2)
    rw [allocTopics]
    constructor
    · intro s hs
      rcases List.mem_append.mp hs with hs | hs
      · exact pA s hs
      · exact ih1.1 s hs
    · apply List.pairwise_append.mpr
      refine ⟨pB, ih1.2, ?_⟩
      intro s1 h1 s2 h2
      have ih2 := ih
        (allocTopic opts userId syl topic (topic.estimatedHours * 60) store 0 slots).1
        (allocTopic opts userId syl topic (topic.estimatedHours * 60) store 0 slots).2.2
        (s1.endTime + opts.breakDuration)
        (fun sl h => pC s1 h1 sl h) pE (fun sl h => (pD sl h).2)
      exact (ih2.1 s2 h2).1

/-- C1 counterexample: the no-overlap invariant fails as stated.  With
the wall clock at 08:00 (`today = 480`), a pre-existing booking
08:30–10:00 (`[510, 600)`) is fetched as input (its start time is inside
the horizon) but ignored by the day filter because its start lies before
the 09:00 window start; the allocator then emits a session that overlaps
it. -/
theorem C1_noOverlap_counterexample :
    (∃ f ∈ getSessionsInRange [booking830to10] "u" 480 (480 + minutesPerDay * 7),
      f.toSessionData = booking830to10.data) ∧
    ∃ s ∈ (autoScheduleSessions [booking830to10] "u" 480 sylT {}).2,
      s.startTime < booking830to10.data.endTime ∧
        booking830to10.data.startTime < s.endTime := by
  constructor
  · decide
  · rw [autoScheduleSessions_eq_run]
    decide

/-- C1 (amended): the no-overlap invariant holds for bookings that the
slot finder can see — each contained in a single day's preferred window
and starting no earlier than the call instant — and pairwise disjoint,
with a break buffer that fits in the overnight gap.  Then no two
produced sessions overlap, consecutive produced sessions are separated
by at least `breakDuration`, no produced session overlaps any stored
booking of the user, and every produced session starting after a
booking ends starts at least `breakDuration` minutes after it. -/
theorem C1_noOverlap_amended (store : List StoredDoc) (u : String) (today : Minutes)
    (syl : Syllabus) (o : PartialSchedulingOptions)
    (hsh : 0 ≤ (mergeOptions o).preferredStartHour)
    (heh : (mergeOptions o).preferredEndHour ≤ 24)
    (hbrk : 0 ≤ (mergeOptions o).breakDuration)
    (hgap : (mergeOptions o).breakDuration ≤ minutesPerDay -
      60 * ((mergeOptions o).preferredEndHour - (mergeOptions o).preferredStartHour))
    (hbook : ∀ d ∈ store, d.userId = u → today ≤ d.data.startTime ∧
      d.data.startTime < d.data.endTime ∧
      ∃ k ∈ List.range (mergeOptions o).daysAhead.toNat,
        dayStartOf (mergeOptions o) today k ≤ d.data.startTime ∧
          d.data.endTime ≤ dayEndOf (mergeOptions o) today k)
    (hdisj : store.Pairwise fun d1 d2 => d1.userId = u → d2.userId = u →
      d1.data.endTime ≤ d2.data.startTime ∨ d2.data.endTime ≤ d1.data.startTime) :
    List.Pairwise (fun s1 s2 =>
        s1.endTime + (mergeOptions o).breakDuration ≤ s2.startTime ∧
          ¬(s1.startTime < s2.endTime ∧ s2.startTime < s1.endTime))
      (autoScheduleSessions store u today syl o).2 ∧
    ∀ s ∈ (autoScheduleSessions store u today syl o).2, ∀ d ∈ store, d.userId = u →
      ¬(s.startTime < d.data.endTime ∧ d.data.startTime < s.endTime) ∧
      (d.data.endTime ≤ s.startTime →
        d.data.endTime + (mergeOptions o).breakDuration ≤ s.startTime) := by
  have hdur : ∀ s ∈ (autoScheduleSessions store u today syl o).2,
      15 ≤ s.endTime - s.startTime := by
    intro s hs
    unfold autoScheduleSessions autoScheduleSessionsCore at hs
    by_cases hemp : (incompleteTopics syl).isEmpty
    · simp [hemp] at hs
    · simp only [hemp, Bool.false_eq_true, if_false] at hs
      exact allocTopics_duration (mergeOptions o) u syl (incompleteTopics syl) store _ s hs
  unfold autoScheduleSessions autoScheduleSessionsCore
  by_cases hemp : (incompleteTopics syl).isEmpty
  · simp [hemp]
  · simp only [hemp, Bool.false_eq_true, if_false]
    have hfc := findCore_inv store u today (mergeOptions o) hsh heh hbrk hgap hbook hdisj
    have hslotsclear : ∀ sl ∈ findAvailableSlotsCore store u today (mergeOptions o),
        ∀ pb ∈ (store.filter fun d => decide (d.userId = u)).map
          (fun d => (d.data.startTime, d.data.endTime)),
        ClearOf (mergeOptions o).breakDuration sl.start sl.stop pb.1 pb.2 := by
      intro sl hsl pb hpb
      rcases List.mem_map.mp hpb with ⟨d, hdf, rfl⟩
      rcases List.mem_filter.mp hdf with ⟨hd, hdu⟩
      exact (hfc.1 sl hsl).2 d hd (of_decide_eq_true hdu)
    have hp := allocTopics_place (mergeOptions o) u syl
      ((store.filter fun d => decide (d.userId = u)).map
        (fun d => (d.data.startTime, d.data.endTime))) hbrk
      (incompleteTopics syl) store (findAvailableSlotsCore store u today (mergeOptions o))
      (setHours today (mergeOptions o).preferredStartHour)
      (fun sl hsl => (hfc.1 sl hsl).1) hfc.2 hslotsclear
    have hdur2 : ∀ s ∈ (allocTopics (mergeOptions o) u syl store (incompleteTopics syl)
        (findAvailableSlotsCore store u today (mergeOptions o))).2,
        15 ≤ s.endTime - s.startTime := by
      intro s hs
      exact allocTopics_duration (mergeOptions o) u syl (incompleteTopics syl) store _ s hs
    constructor
    · refine hp.2.imp_of_mem ?_
      intro s1 s2 _ _ hchain
      refine ⟨hchain, ?_⟩
      intro hcon
      linarith [hcon.2]
    · intro s hs d hd hu
      have hclear := (hp.1 s hs).2 (d.data.startTime, d.data.endTime)
        (List.mem_map_of_mem _ (List.mem_filter.mpr ⟨hd, decide_eq_true hu⟩))
      have hsdur := hdur2 s hs
      have hdlt := (hbook d hd hu).2.1
      rcases hclear with hcl | hcl
      · constructor
        · intro hcon
          have : d.data.startTime < s.endTime := hcon.2
          simp only [ClearOf] at hcl
          linarith
        · intro hde
          simp only [ClearOf] at hcl
          linarith
      · constructor
        · intro hcon
          have : s.startTime < d.data.endTime := hcon.1
          linarith
        · intro _
          exact hcl

/-- C1 witness: the amended invariant applied to a concrete run with one
booking 10:00–11:00 fully inside the default window. -/
theorem C1_noOverlap_amended_witness :
    (List.Pairwise (fun s1 s2 =>
        s1.endTime + (mergeOptions {}).breakDuration ≤ s2.startTime ∧
          ¬(s1.startTime < s2.endTime ∧ s2.startTime < s1.endTime))
      (autoScheduleSessions [booking10to11] "u" 0 sylT {}).2) ∧
    ∀ s ∈ (autoScheduleSessions [booking10to11] "u" 0 sylT {}).2,
      ∀ d ∈ [booking10to11], d.userId = "u" →
      ¬(s.startTime < d.data.endTime ∧ d.data.startTime < s.endTime) ∧
      (d.data.endTime ≤ s.startTime →
        d.data.endTime + (mergeOptions {}).breakDuration ≤ s.startTime) :=
  C1_noOverlap_amended [booking10to11] "u" 0 sylT {} (by decide) (by decide) (by decide)
    (by decide) (by decide) (by decide)

/-! ### C3 -/

/-- The topic loop appends to the `sessions` collection exactly one
document per session it returns, in order. -/
theorem allocTopic_store (opts : SchedulingOptions) (userId : String) (syl : Syllabus)
    (topic : SyllabusTopic) (required : Int) :
    ∀ (store : List StoredDoc) (scheduled : Int) (slots : List TimeSlot),
      (allocTopic opts userId syl topic required store scheduled slots).1 =
        store ++ (allocTopic opts userId syl topic required store scheduled slots).2.1.map
          fun s => ⟨userId, s.toSessionData⟩ := by
  intro store scheduled slots
  induction store, scheduled, slots using allocTopic.induct opts userId syl topic required with
  | case1 store scheduled => simp [allocTopic.eq_1]
  | case2 store scheduled slot rest hreq sd sm hmin ss se r ns hadv ih =>
    rw [allocTopic_emit _ _ _ _ _ _ _ _ _ hreq hmin]
    simp only [if_pos hadv, List.map_cons]
    rw [ih]
    have hr : r.1 = store ++ [⟨userId, sessionDataFor syl topic ss se⟩] := rfl
    rw [hr, List.append_assoc]
    rfl
  | case3 store scheduled slot rest hreq sd sm hmin ss se r ns hadv ih =>
    rw [allocTopic_emit _ _ _ _ _ _ _ _ _ hreq hmin]
    simp only [if_neg hadv, List.map_cons]
    rw [ih]
    have hr : r.1 = store ++ [⟨userId, sessionDataFor syl topic ss se⟩] := rfl
    rw [hr, List.append_assoc]
    rfl
  | case4 store scheduled slot rest hreq sd sm hmin ih =>
    rw [allocTopic_skip _ _ _ _ _ _ _ _ _ hreq hmin]
    exact ih
  | case5 store scheduled slot rest hreq =>
    simp [allocTopic_exit _ _ _ _ _ _ _ _ _ hreq]

/-- Lift of `allocTopic_store` over the outer topic loop. -/
theorem allocTopics_store (opts : SchedulingOptions) (userId : String) (syl : Syllabus) :
    ∀ (ts : List SyllabusTopic) (store : List StoredDoc) (slots : List TimeSlot),
      (allocTopics opts userId syl store ts slots).1 =
        store ++ (allocTopics opts userId syl store ts slots).2.map
          fun s => ⟨userId, s.toSessionData⟩ := by
  intro ts
  induction ts with
  | nil => intro store slots; simp [allocTopics]
  | cons topic ts ih =>
    intro store slots
    rw [allocTopics]
    simp only [List.map_append]
    rw [ih, allocTopic_store]
    simp [List.append_assoc]

/-- C3 counterexample: allocation is not storage-free.  Starting from an
empty `sessions` collection, a run of `autoScheduleSessions` that
proposes sessions leaves the collection non-empty: each proposed session
was written by the engine's own `createSession` call inside the
allocation loop, not by the caller. -/
theorem C3_enginePurity_counterexample :
    (autoScheduleSessions [] "u" 0 sylT {}).1 ≠ ([] : List StoredDoc) := by
  rw [autoScheduleSessions_eq_run]
  decide

/-- C3 (amended): `autoScheduleSessions` persists its proposed sessions
itself during allocation — for every input, the final state of the
`sessions` collection is the initial state plus exactly one written
document per returned session (carrying the calling user and the
session's payload), in emission order; persistence is not left to the
caller. -/
theorem C3_enginePurity_amended (store : List StoredDoc) (userId : String)
    (today : Minutes) (syl : Syllabus) (o : PartialSchedulingOptions) :
    (autoScheduleSessions store userId today syl o).1 =
      store ++ (autoScheduleSessions store userId today syl o).2.map
        fun s => ⟨userId, s.toSessionData⟩ := by
  unfold autoScheduleSessions autoScheduleSessionsCore
  by_cases h : (incompleteTopics syl).isEmpty
  · simp [h]
  · simp only [h, Bool.false_eq_true, if_false]
    exact allocTopics_store (mergeOptions o) userId syl (incompleteTopics syl) store _

end EduPlanr
